import Mathlib

/-!
# ComposedPredictor (include/predictor/ComposedPredictor.hpp)

A shallow embedding of `SZ::ComposedPredictor<T, N>`.

Modelling conventions.

* The wrapped predictors, the range / iterator and the entropy coder are
  collaborators declared outside the header.  They enter as records of
  arbitrary functions, so every theorem holds for all of them.
* A predictor handle is a record holding the predictor's private state and its
  virtual methods; the handles of one list are distinct objects.
* `T` and the accumulator type `double` are identified: a single type `κ` that
  is totally ordered and has an exact, commutative addition (no NaN, no
  rounding).
* `uchar *&c` is an address into a total byte memory (`Memory`); a write is the
  list of bytes put at the cursor, which then moves past them.
* An unchecked read outside a container yields whatever the memory holds there:
  such a value is a parameter.  A call through a handle outside the predictor
  list, or a write outside a container, has no defined continuation
  (`Fault.undefined`).  `Fault.fatal` is a hard error raised by a collaborator
  and propagated to the caller.
* `calls` is a ghost field: the virtual calls issued on the wrapped predictors,
  oldest first.
* `min_dimension` is a 32-bit `int`: the conversion from `size_t` (`to_int`) and
  the subtraction `min_dimension - 1` (`minus_one`) wrap around as the compiled
  code does.
-/

set_option linter.unusedSectionVars false

namespace SZ

/-- The two ways a member function can fail to return normally. -/
inductive Fault where
  | fatal
  | undefined
deriving DecidableEq, Repr

/-- Byte-addressed memory: the byte stored at every address. -/
abbrev Memory := Nat → Nat

/-- A handle of type `VirtualPredictor<T, N>`: the object's state together with
its virtual methods.  `save` is `const` and returns the bytes it puts at the
cursor; `load` returns the new state, the new cursor and the new
`remaining_length`, or raises. -/
structure VirtualPredictor (σ ι ρ κ : Type) where
  state : σ
  precompress_block : ρ → σ → σ
  precompress_block_commit : σ → σ
  predecompress_block : ρ → σ → σ
  save : σ → List Nat
  load : Memory → Nat → Nat → σ → Except Fault (σ × Nat × Nat)
  predict : σ → ι → κ
  estimate_error : σ → ι → κ

/-- The member `HuffmanEncoder<int> selection_encoder`: the coder's state with
its operations, all of them arbitrary.  `save` and `encode` return the bytes
they put at the cursor; `load` returns the new cursor and the new
`remaining_length`; `decode mem c n` returns the new cursor and the decoded
sequence. -/
structure HuffmanEncoder (ε : Type) where
  state : ε
  preprocess_encode : List Int → Nat → ε → ε
  save : ε → ε × List Nat
  encode : List Int → ε → ε × List Nat
  postprocess_encode : ε → ε
  load : Memory → Nat → Nat → ε → Except Fault (ε × Nat × Nat)
  decode : Memory → Nat → Nat → ε → ε × Nat × List Int
  postprocess_decode : ε → ε

/-- The collaborator `multi_dimensional_range<T, N>` and its iterator:
`get_dimensions`, `begin` and the relative `move(offsets...)`. -/
structure RangeOps (ι ρ : Type) where
  get_dimensions : ρ → List Nat
  begin : ρ → ι
  move : ι → List Int → ι

/-- One virtual call issued on the predictor with list index `p`. -/
inductive Call (ι ρ : Type) where
  | precompress_block (p : Nat) (range : ρ)
  | precompress_block_commit (p : Nat)
  | predecompress_block (p : Nat) (range : ρ)
  | estimate_error (p : Nat) (iter : ι)
  | save (p : Nat)
  | load (p : Nat)

/-- The data members of `ComposedPredictor<T, N>` (and the ghost `calls`). -/
structure ComposedPredictor (σ ι ρ κ ε : Type) where
  predictors : List (VirtualPredictor σ ι ρ κ)
  selection : List Int
  selection_encoder : HuffmanEncoder ε
  sid : Int
  current_index : Nat
  predict_error : List κ
  calls : List (Call ι ρ)

section Model

variable {σ ι ρ κ ε : Type}

/-- `true` on the calls `predictors[p]->estimate_error(..)`. -/
def Call.is_estimate_error (p : Nat) : Call ι ρ → Bool
  | Call.estimate_error q _ => q == p
  | _ => false

/-- `true` on the calls `predictors[p]->precompress_block(..)`. -/
def Call.is_precompress_block (p : Nat) : Call ι ρ → Bool
  | Call.precompress_block q _ => q == p
  | _ => false

/-- `true` on the calls `predictors[p]->precompress_block_commit()`. -/
def Call.is_commit (p : Nat) : Call ι ρ → Bool
  | Call.precompress_block_commit q => q == p
  | _ => false

/-- `true` on the calls `predictors[p]->predecompress_block(..)`. -/
def Call.is_predecompress_block (p : Nat) : Call ι ρ → Bool
  | Call.predecompress_block q _ => q == p
  | _ => false

/-- `true` on the calls `predictors[..]->estimate_error(..)`, whatever the
predictor. -/
def Call.is_estimate : Call ι ρ → Bool
  | Call.estimate_error _ _ => true
  | _ => false

/-- The calls issued between the state `s` and the later state `t`. -/
def calls_since (s t : ComposedPredictor σ ι ρ κ ε) : List (Call ι ρ) :=
  t.calls.drop s.calls.length

/-- `predictors[sid]` for an `int sid`: the handle at that index, if there is one. -/
def handle (ps : List (VirtualPredictor σ ι ρ κ)) (sid : Int) :
    Option (VirtualPredictor σ ι ρ κ) :=
  if 0 ≤ sid then ps[sid.toNat]? else none

/-- Conversion of a `size_t` to `int` (two's complement, 32 bits). -/
def to_int (n : Nat) : Int :=
  if n % 2 ^ 32 < 2 ^ 31 then (n % 2 ^ 32 : Nat) else (n % 2 ^ 32 : Nat) - 2 ^ 32

/-- The loop of `std::min_element`: `i` is the index of the element looked at,
`smallest` the index of the smallest element so far and `v` its value. -/
def min_element_loop [LT κ] [DecidableRel (fun a b : κ => a < b)] :
    List κ → Nat → Nat → κ → Nat
  | [], _, smallest, _ => smallest
  | x :: xs, i, smallest, v =>
    if x < v then min_element_loop xs (i + 1) i x else min_element_loop xs (i + 1) smallest v

/-- `std::distance(first, std::min_element(first, last))`: the index of the
first smallest element, and `0` (the end) when the range is empty. -/
def min_element [LT κ] [DecidableRel (fun a b : κ => a < b)] : List κ → Nat
  | [] => 0
  | x :: xs => min_element_loop xs 1 0 x

/-- Every member but `predict_error` and the call log is the same in `t` as in
`s`, `predict_error` has kept its length and the log has grown by
`estimate_error` calls only. -/
def Frame (s t : ComposedPredictor σ ι ρ κ ε) : Prop :=
  t.predictors = s.predictors ∧ t.selection = s.selection ∧
    t.selection_encoder = s.selection_encoder ∧ t.sid = s.sid ∧
    t.current_index = s.current_index ∧ t.predict_error.length = s.predict_error.length ∧
    ∃ new, t.calls = s.calls ++ new ∧ ∀ c ∈ new, Call.is_estimate c = true

/-- The value of `l` at index `i` is below or equal to every value of `l`. -/
def is_minimal_at [LE κ] (l : List κ) (i : Nat) : Prop :=
  ∃ w, l[i]? = some w ∧ ∀ (j : Nat) (y : κ), l[j]? = some y → w ≤ y

/-- The index `i` is the argmin of `l` with ties going to the lowest index: the
smallest index whose value is below or equal to every value of `l`. -/
def is_first_argmin [LE κ] (l : List κ) (i : Nat) : Prop :=
  is_minimal_at l i ∧ ∀ k, k < i → ¬ is_minimal_at l k

/-- The bytes `bytes` lie in `mem` from the address `c` on. -/
def holds (mem : Memory) (c : Nat) (bytes : List Nat) : Prop :=
  ∀ (i : Nat) (h : i < bytes.length), mem (c + i) = bytes[i]

/-- The contract between a saving handle `P` and a loading handle `L`: the
`load` of `L` consumes exactly what the `save` of `P` wrote.  Wherever these
bytes lie in `mem`, and whenever `remaining_length` covers them, `load` returns
with the cursor moved past them and `remaining_length` reduced by their
number. -/
def load_consumes_save (mem : Memory) (L P : VirtualPredictor σ ι ρ κ) : Prop :=
  ∀ c remaining_length : Nat, holds mem c (P.save P.state) →
    (P.save P.state).length ≤ remaining_length →
    ∃ st, L.load mem c remaining_length L.state =
      Except.ok (st, c + (P.save P.state).length, remaining_length - (P.save P.state).length)

/-- The header the coder `E` writes once prepared for `bins` with `hint`. -/
def coder_header (E : HuffmanEncoder ε) (bins : List Int) (hint : Nat) : List Nat :=
  (E.save (E.preprocess_encode bins hint E.state)).2

/-- The stream the coder `E` writes for `bins` after its header. -/
def coder_stream (E : HuffmanEncoder ε) (bins : List Int) (hint : Nat) : List Nat :=
  (E.encode bins (E.save (E.preprocess_encode bins hint E.state)).1).2

/-- The contract between an encoding coder `E` and a decoding coder `D`: the
`decode` of `D` inverts the `encode` of `E`.  Wherever the header and the stream
written by `E` for `bins` lie in `mem`, and whenever `remaining_length` covers
them, the `load` of `D` returns with the cursor moved past the header, and
`decode` for `bins.length` values then returns `bins`. -/
def decode_inverts_encode (mem : Memory) (D E : HuffmanEncoder ε) (bins : List Int)
    (hint : Nat) : Prop :=
  ∀ c remaining_length : Nat,
    holds mem c (coder_header E bins hint ++ coder_stream E bins hint) →
    (coder_header E bins hint).length + (coder_stream E bins hint).length ≤ remaining_length →
    ∃ e rem, D.load mem c remaining_length D.state =
        Except.ok (e, c + (coder_header E bins hint).length, rem) ∧
      (D.decode mem (c + (coder_header E bins hint).length) bins.length e).2.2 = bins

/-- The iterator moves of rank `N` (one offset per axis) are relative per-axis
offsets: moving by zero offsets changes nothing, and two successive moves amount
to one move by the sum of the offsets, axis by axis. -/
def relative_moves (N : Nat) (R : RangeOps ι ρ) : Prop :=
  (∀ (it : ι) (offsets : List Int), offsets.length = N → (∀ x ∈ offsets, x = 0) →
      R.move it offsets = it) ∧
    ∀ (it : ι) (a b : List Int), a.length = N → b.length = N →
      R.move (R.move it a) b = R.move it (List.zipWith (fun x y => x + y) a b)

/-- The iterator reached from `iter` by `k` successive calls `move(offsets)`. -/
def moved (R : RangeOps ι ρ) (offsets : List Int) (k : Nat) (iter : ι) : ι :=
  (fun it => R.move it offsets)^[k] iter

/-- Between `s` and `t` the call log has grown by `estimate_error` calls only,
each of them at an iterator satisfying `P`. -/
def Sampled (P : ι → Prop) (s t : ComposedPredictor σ ι ρ κ ε) : Prop :=
  ∃ new, t.calls = s.calls ++ new ∧ ∀ c ∈ new, ∃ p it, c = Call.estimate_error p it ∧ P it

/-- The contract between an encoding coder `E` and a decoding coder `D` on the
cursor: the `load` and `decode` of `D` advance it by exactly the bytes that the
`save` and `encode` of `E` wrote.  Wherever the header and the stream written by
`E` for `bins` lie in `mem`, and whenever `remaining_length` covers them, the
`load` of `D` returns with the cursor moved past the header, and `decode` for
`bins.length` values then leaves the cursor just behind the stream. -/
def decode_consumes_encode (mem : Memory) (D E : HuffmanEncoder ε) (bins : List Int)
    (hint : Nat) : Prop :=
  ∀ c remaining_length : Nat,
    holds mem c (coder_header E bins hint ++ coder_stream E bins hint) →
    (coder_header E bins hint).length + (coder_stream E bins hint).length ≤ remaining_length →
    ∃ e rem, D.load mem c remaining_length D.state =
        Except.ok (e, c + (coder_header E bins hint).length, rem) ∧
      (D.decode mem (c + (coder_header E bins hint).length) bins.length e).2.1 =
        c + (coder_header E bins hint).length + (coder_stream E bins hint).length

/-- A `load` that accounts for what it consumes: whenever it returns, the cursor
has not moved back, `remaining_length` has not grown, and `remaining_length` has
dropped by no more than the cursor has advanced. -/
def load_accounts {α : Type} (mem : Memory)
    (ld : Memory → Nat → Nat → α → Except Fault (α × Nat × Nat)) (st : α) : Prop :=
  ∀ (c r : Nat) (st' : α) (c' r' : Nat), ld mem c r st = Except.ok (st', c', r') →
    c ≤ c' ∧ r' ≤ r ∧ r - r' ≤ c' - c

/-- A `load` that leaves `remaining_length` as it found it. -/
def load_keeps_remaining {α : Type} (mem : Memory)
    (ld : Memory → Nat → Nat → α → Except Fault (α × Nat × Nat)) (st : α) : Prop :=
  ∀ (c r : Nat) (st' : α) (c' r' : Nat), ld mem c r st = Except.ok (st', c', r') → r' = r

variable [LinearOrder κ] [AddCommMonoid κ]

/-- The constructor: the predictor list is stored, `predict_error` is resized to
its length, the history is empty and the cursor is `0`.  `sid` has no
initialiser: its first value `sid0` is arbitrary. -/
def ComposedPredictor.construct (predictors_ : List (VirtualPredictor σ ι ρ κ))
    (enc : HuffmanEncoder ε) (sid0 : Int) : ComposedPredictor σ ι ρ κ ε :=
  { predictors := predictors_
    selection := []
    selection_encoder := enc
    sid := sid0
    current_index := 0
    predict_error := List.replicate predictors_.length 0
    calls := [] }

/-- The statement `predict_error[p] += predictors[p]->estimate_error(iter)`. -/
def accumulate (p : Nat) (iter : ι) (s : ComposedPredictor σ ι ρ κ ε) :
    ComposedPredictor σ ι ρ κ ε :=
  match s.predictors[p]? with
  | none => s
  | some P =>
    { s with
      predict_error := s.predict_error.set p (s.predict_error.getD p 0 + P.estimate_error P.state iter)
      calls := s.calls ++ [Call.estimate_error p iter] }

/-- The statement `std::fill(predict_error.begin(), predict_error.end(), 0)`. -/
def fill_zero (s : ComposedPredictor σ ι ρ κ ε) : ComposedPredictor σ ι ρ κ ε :=
  { s with predict_error := s.predict_error.map (fun _ => 0) }

/-- The loop `for (int p = 0; p < predictors.size(); p++)` over a body. -/
def for_predictors (body : Nat → ComposedPredictor σ ι ρ κ ε → ComposedPredictor σ ι ρ κ ε)
    (s : ComposedPredictor σ ι ρ κ ε) : ComposedPredictor σ ι ρ κ ε :=
  (List.range s.predictors.length).foldl (fun t p => body p t) s

/-- The `int` expression `min_dimension - 1`.  `min_dimension` is a 32-bit `int`,
so the subtraction overflows at `INT_MIN` only, where the compiled code wraps
around to `INT_MAX`; everywhere else it is the exact difference. -/
def minus_one (min_dimension : Int) : Int :=
  if min_dimension = -2 ^ 31 then 2 ^ 31 - 1 else min_dimension - 1

/-- The overload of `estimate_error` for `N == 1`. -/
def estimate_error_1 (R : RangeOps ι ρ) (iter : ι) (min_dimension : Int)
    (s : ComposedPredictor σ ι ρ κ ε) : ComposedPredictor σ ι ρ κ ε :=
  let s := fill_zero s
  let iter1 := R.move iter [minus_one min_dimension]
  for_predictors (fun p t => accumulate p iter1 (accumulate p iter t)) s

/-- The loop `for (int i = 2; i < min_dimension; i++)` of the overload for
`N == 2`, with `k` iterations left. -/
def sweep_2 (R : RangeOps ι ρ) : Nat → ι → ι → ComposedPredictor σ ι ρ κ ε →
    ComposedPredictor σ ι ρ κ ε
  | 0, _, _, s => s
  | k + 1, iter1, iter2, s =>
    let s := for_predictors (fun p t => accumulate p iter2 (accumulate p iter1 t)) s
    sweep_2 R k (R.move iter1 [1, 1]) (R.move iter2 [1, -1]) s

/-- The overload of `estimate_error` for `N == 2`; the loop runs once for every
`i` with `2 ≤ i < min_dimension`. -/
def estimate_error_2 (R : RangeOps ι ρ) (iter : ι) (min_dimension : Int)
    (s : ComposedPredictor σ ι ρ κ ε) : ComposedPredictor σ ι ρ κ ε :=
  let s := fill_zero s
  let iter1 := iter
  let iter2 := R.move iter [0, minus_one min_dimension]
  sweep_2 R (min_dimension - 2).toNat iter1 iter2 s

/-- The loop `for (int i = 2; i < min_dimension; i++)` of the overload for
`N != 1 && N != 2`, with `k` iterations left. -/
def sweep_3 (R : RangeOps ι ρ) : Nat → ι → ι → ι → ι → ComposedPredictor σ ι ρ κ ε →
    ComposedPredictor σ ι ρ κ ε
  | 0, _, _, _, _, s => s
  | k + 1, iter1, iter2, iter3, iter4, s =>
    let s := for_predictors (fun p t =>
      accumulate p iter4 (accumulate p iter3 (accumulate p iter2 (accumulate p iter1 t)))) s
    sweep_3 R k (R.move iter1 [1, 1, 1]) (R.move iter2 [1, 1, -1]) (R.move iter3 [1, -1, 1])
      (R.move iter4 [1, -1, -1]) s

/-- The overload of `estimate_error` for `N != 1 && N != 2`. -/
def estimate_error_3 (R : RangeOps ι ρ) (iter : ι) (min_dimension : Int)
    (s : ComposedPredictor σ ι ρ κ ε) : ComposedPredictor σ ι ρ κ ε :=
  let s := fill_zero s
  let iter1 := iter
  let iter2 := R.move iter [0, 0, minus_one min_dimension]
  let iter3 := R.move iter [0, minus_one min_dimension, 0]
  let iter4 := R.move iter [0, minus_one min_dimension, minus_one min_dimension]
  sweep_3 R (min_dimension - 2).toNat iter1 iter2 iter3 iter4 s

/-- The member `estimate_error` of `ComposedPredictor<T, N>`: the overload is
chosen by the rank `N`. -/
def estimate_error (N : Nat) (R : RangeOps ι ρ) (iter : ι) (min_dimension : Int)
    (s : ComposedPredictor σ ι ρ κ ε) : ComposedPredictor σ ι ρ κ ε :=
  if N = 1 then estimate_error_1 R iter min_dimension s
  else if N = 2 then estimate_error_2 R iter min_dimension s
  else estimate_error_3 R iter min_dimension s

/-- The call `p->precompress_block(range)` on one handle. -/
def VirtualPredictor.do_precompress_block (range : ρ) (P : VirtualPredictor σ ι ρ κ) :
    VirtualPredictor σ ι ρ κ :=
  { P with state := P.precompress_block range P.state }

/-- The call `p->precompress_block_commit()` on one handle. -/
def VirtualPredictor.do_commit (P : VirtualPredictor σ ι ρ κ) : VirtualPredictor σ ι ρ κ :=
  { P with state := P.precompress_block_commit P.state }

/-- The call `p->predecompress_block(range)` on one handle. -/
def VirtualPredictor.do_predecompress_block (range : ρ) (P : VirtualPredictor σ ι ρ κ) :
    VirtualPredictor σ ι ρ κ :=
  { P with state := P.predecompress_block range P.state }

/-- The loop `for (const auto &p : predictors) p->precompress_block(range)`. -/
def broadcast_precompress_block (range : ρ) (s : ComposedPredictor σ ι ρ κ ε) :
    ComposedPredictor σ ι ρ κ ε :=
  { s with
    predictors := s.predictors.map (VirtualPredictor.do_precompress_block range)
    calls := s.calls ++ (List.range s.predictors.length).map (fun p => Call.precompress_block p range) }

/-- The value `*std::min_element(dims.begin(), dims.end())` converted to `int`. -/
def min_dimension_of (dims : List Nat) : Int :=
  to_int (dims.getD (min_element dims) 0)

/-- The member `precompress_block`. -/
def precompress_block (N : Nat) (R : RangeOps ι ρ) (range : ρ)
    (s : ComposedPredictor σ ι ρ κ ε) : ComposedPredictor σ ι ρ κ ε :=
  let s := broadcast_precompress_block range s
  let dims := R.get_dimensions range
  let min_dimension := min_dimension_of dims
  let s := estimate_error N R (R.begin range) min_dimension s
  let sid : Int := (min_element s.predict_error : Nat)
  { s with sid := sid, selection := s.selection ++ [sid] }

/-- The member `precompress_block_commit`. -/
def precompress_block_commit (s : ComposedPredictor σ ι ρ κ ε) :
    Except Fault (ComposedPredictor σ ι ρ κ ε) :=
  match handle s.predictors s.sid with
  | none => Except.error Fault.undefined
  | some P =>
    Except.ok { s with
      predictors := s.predictors.set s.sid.toNat P.do_commit
      calls := s.calls ++ [Call.precompress_block_commit s.sid.toNat] }

/-- The member `predecompress_block`.  `selection[current_index++]` is read
without a check: `beyond i` is the `int` found at slot `i` of the history's
storage when `i` lies at or past its end. -/
def predecompress_block (beyond : Nat → Int) (range : ρ) (s : ComposedPredictor σ ι ρ κ ε) :
    Except Fault (ComposedPredictor σ ι ρ κ ε) :=
  let sid := s.selection.getD s.current_index (beyond s.current_index)
  let s := { s with sid := sid, current_index := s.current_index + 1 }
  match handle s.predictors s.sid with
  | none => Except.error Fault.undefined
  | some P =>
    Except.ok { s with
      predictors := s.predictors.set s.sid.toNat (P.do_predecompress_block range)
      calls := s.calls ++ [Call.predecompress_block s.sid.toNat range] }

/-- The member `predict`. -/
def predict (iter : ι) (s : ComposedPredictor σ ι ρ κ ε) : Except Fault κ :=
  match handle s.predictors s.sid with
  | none => Except.error Fault.undefined
  | some P => Except.ok (P.predict P.state iter)

/-- The eight bytes of a `size_t` in memory, least significant first (the
layout of the little-endian targets the library is built for). -/
def size_t_bytes (n : Nat) : List Nat :=
  (List.range 8).map (fun i => n / 256 ^ i % 256)

/-- The `size_t` read by `*reinterpret_cast<const size_t *>(c)`. -/
def read_size_t (mem : Memory) (c : Nat) : Nat :=
  ((List.range 8).map (fun i => mem (c + i) % 256 * 256 ^ i)).sum

/-- The loop `for (const auto &p : predictors) p->save(c)`: the bytes written so
far, the cursor and the calls issued, starting with predictor `p`. -/
def save_predictors : List (VirtualPredictor σ ι ρ κ) → Nat → List Nat × Nat × List (Call ι ρ) →
    List Nat × Nat × List (Call ι ρ)
  | [], _, acc => acc
  | P :: Ps, p, (out, c, log) =>
    let blob := P.save P.state
    save_predictors Ps (p + 1) (out ++ blob, c + blob.length, log ++ [Call.save p])

/-- The member `save`, called with the cursor at `c`: the new state, the bytes
written from `c` on, and the cursor at return. -/
def save (c : Nat) (s : ComposedPredictor σ ι ρ κ ε) :
    ComposedPredictor σ ι ρ κ ε × List Nat × Nat :=
  let (out, c, log) := save_predictors s.predictors 0 ([], c, s.calls)
  let out := out ++ size_t_bytes (s.selection.length % 2 ^ 64)
  let c := c + 8
  let enc := s.selection_encoder
  let e := enc.preprocess_encode s.selection (4 * s.predictors.length) enc.state
  let (e, header) := enc.save e
  let out := out ++ header
  let c := c + header.length
  let (e, stream) := enc.encode s.selection e
  let out := out ++ stream
  let c := c + stream.length
  let e := enc.postprocess_encode e
  ({ s with selection_encoder := { enc with state := e }, calls := log }, out, c)

/-- The loop `for (const auto &p : predictors) p->load(c, remaining_length)`,
starting with predictor `p`: the loaded handles, the cursor, `remaining_length`
and the calls issued.  A predictor that raises ends the loop. -/
def load_predictors (mem : Memory) : List (VirtualPredictor σ ι ρ κ) → Nat → Nat → Nat →
    Except Fault (List (VirtualPredictor σ ι ρ κ) × Nat × Nat × List (Call ι ρ))
  | [], _, c, remaining_length => Except.ok ([], c, remaining_length, [])
  | P :: Ps, p, c, remaining_length =>
    match P.load mem c remaining_length P.state with
    | Except.error f => Except.error f
    | Except.ok (st, c, remaining_length) =>
      match load_predictors mem Ps (p + 1) c remaining_length with
      | Except.error f => Except.error f
      | Except.ok (Ps, c, remaining_length, log) =>
        Except.ok ({ P with state := st } :: Ps, c, remaining_length, Call.load p :: log)

/-- The member `load`, called with the cursor at `c`: the new state, the cursor
and `remaining_length` at return. -/
def load (mem : Memory) (c remaining_length : Nat) (s : ComposedPredictor σ ι ρ κ ε) :
    Except Fault (ComposedPredictor σ ι ρ κ ε × Nat × Nat) :=
  match load_predictors mem s.predictors 0 c remaining_length with
  | Except.error f => Except.error f
  | Except.ok (ps, c, remaining_length, log) =>
    let selection_size := read_size_t mem c
    let c := c + 8
    let enc := s.selection_encoder
    match enc.load mem c remaining_length enc.state with
    | Except.error f => Except.error f
    | Except.ok (e, c, remaining_length) =>
      let (e, c, decoded) := enc.decode mem c selection_size e
      let e := enc.postprocess_decode e
      Except.ok ({ s with
        predictors := ps
        selection := decoded
        selection_encoder := { enc with state := e }
        calls := s.calls ++ log }, c, remaining_length)

/-- The first loop of `print`: `cnt[sel]++; cnt_total++` for every entry of the
history.  An entry outside `cnt` makes the increment a write outside the
vector. -/
def count_selection : List Int → List Nat × Nat → Except Fault (List Nat × Nat)
  | [], acc => Except.ok acc
  | sel :: rest, (cnt, cnt_total) =>
    if 0 ≤ sel ∧ sel.toNat < cnt.length then
      count_selection rest (cnt.set sel.toNat (cnt.getD sel.toNat 0 + 1), cnt_total + 1)
    else Except.error Fault.undefined

/-- The value `1.0 * cnt / cnt_total` as an exact fraction; `none` is the NaN
that `0.0 / 0` gives. -/
def percentage (cnt cnt_total : Nat) : Option ℚ :=
  if cnt_total = 0 then none else some ((cnt : ℚ) / (cnt_total : ℚ))

/-- The member `print`: for every predictor, in list order, the pair
`Blocks`, `Percentage` handed to `printf` (before `%.2f` formats it). -/
def print (s : ComposedPredictor σ ι ρ κ ε) : Except Fault (List (Nat × Option ℚ)) :=
  match count_selection s.selection (List.replicate s.predictors.length 0, 0) with
  | Except.error f => Except.error f
  | Except.ok (cnt, cnt_total) =>
    Except.ok ((List.range s.predictors.length).map
      (fun i => (cnt.getD i 0, percentage (cnt.getD i 0) cnt_total)))

/-- The sum of reported percentages; a NaN among them makes the sum NaN. -/
def percentage_sum : List (Option ℚ) → Option ℚ
  | [] => some 0
  | none :: _ => none
  | some q :: rest =>
    match percentage_sum rest with
    | none => none
    | some r => some (q + r)

/-- A compression run: `precompress_block` on every block of the list, in order.
Returned are the final state and the value of `sid` after each call. -/
def compress_blocks (N : Nat) (R : RangeOps ι ρ) : List ρ → ComposedPredictor σ ι ρ κ ε →
    ComposedPredictor σ ι ρ κ ε × List Int
  | [], s => (s, [])
  | range :: rest, s =>
    let s := precompress_block N R range s
    let (t, sids) := compress_blocks N R rest s
    (t, s.sid :: sids)

/-- A decompression run: `predecompress_block` on every block of the list, in
order.  Returned are the final state and the value of `sid` after each call. -/
def decompress_blocks (beyond : Nat → Int) : List ρ → ComposedPredictor σ ι ρ κ ε →
    Except Fault (ComposedPredictor σ ι ρ κ ε × List Int)
  | [], s => Except.ok (s, [])
  | range :: rest, s =>
    match predecompress_block beyond range s with
    | Except.error f => Except.error f
    | Except.ok s =>
      match decompress_blocks beyond rest s with
      | Except.error f => Except.error f
      | Except.ok (t, sids) => Except.ok (t, s.sid :: sids)

/-- The cost that the predictor with list index `p` estimates at `iter` (and `0`
when the list has no such predictor). -/
def point_cost (ps : List (VirtualPredictor σ ι ρ κ)) (p : Nat) (iter : ι) : κ :=
  match ps[p]? with
  | some P => P.estimate_error P.state iter
  | none => 0

/-- The sum of the point costs `f` over the points that `estimate_error` samples
for rank `N`, start `iter` and smallest extent `m`: two points for rank 1, and
one point per ray and loop iteration otherwise. -/
def sampled_cost (N : Nat) (R : RangeOps ι ρ) (iter : ι) (m : Int) (f : ι → κ) : κ :=
  if N = 1 then f iter + f (R.move iter [minus_one m])
  else if N = 2 then
    ((List.range (m - 2).toNat).map (fun k =>
      f (moved R [1, 1] k iter) + f (moved R [1, -1] k (R.move iter [0, minus_one m])))).sum
  else
    ((List.range (m - 2).toNat).map (fun k =>
      f (moved R [1, 1, 1] k iter) +
        f (moved R [1, 1, -1] k (R.move iter [0, 0, minus_one m])) +
        f (moved R [1, -1, 1] k (R.move iter [0, minus_one m, 0])) +
        f (moved R [1, -1, -1] k (R.move iter [0, minus_one m, minus_one m])))).sum

end Model

/-! ### A concrete instance

Three predictors over numbered one-dimensional blocks of extent 2, with the
estimated costs `(5,3,9)`, `(1,1,2)`, `(7,2,2)`, `(4,4,4)` for the blocks
`0 .. 3`, and a coder that stores every selection in one byte after a one-byte
header. -/

section Instance

/-- The byte memory holding `bytes` from address `0` on, and `0` elsewhere. -/
def memory_of (bytes : List Nat) : Memory := fun a => bytes.getD a 0

/-- Blocks are numbers; an iterator is a block together with an offset along the
single axis. -/
def example_range : RangeOps (Nat × Int) Nat :=
  { get_dimensions := fun _ => [2]
    begin := fun b => (b, 0)
    move := fun it offsets => (it.1, it.2 + offsets.headD 0) }

/-- Row `b` holds the costs of the three predictors on block `b`. -/
def example_costs : List (List Int) := [[5, 3, 9], [1, 1, 2], [7, 2, 2], [4, 4, 4]]

/-- Predictor `k` of the instance.  Its state is a counter: a commit adds `1`,
`predecompress_block` adds `100`.  It costs its table entry at the start of a
block and nothing elsewhere; its blob is one byte. -/
def example_predictor (k : Nat) : VirtualPredictor Nat (Nat × Int) Nat Int :=
  { state := 0
    precompress_block := fun _ st => st
    precompress_block_commit := fun st => st + 1
    predecompress_block := fun _ st => st + 100
    save := fun st => [st % 256]
    load := fun mem c remaining_length _ =>
      if remaining_length = 0 then Except.error Fault.fatal
      else Except.ok (mem c, c + 1, remaining_length - 1)
    predict := fun _ _ => 0
    estimate_error := fun _ it => if it.2 = 0 then (example_costs.getD it.1 []).getD k 0 else 0 }

/-- A coder that writes the header byte `42` and then one byte per selection;
its `load` raises when no byte is left for the header. -/
def example_encoder : HuffmanEncoder Unit :=
  { state := ()
    preprocess_encode := fun _ _ e => e
    save := fun e => (e, [42])
    encode := fun bins e => (e, bins.map (fun b => b.toNat % 256))
    postprocess_encode := fun e => e
    load := fun _ c remaining_length e =>
      if remaining_length = 0 then Except.error Fault.fatal
      else Except.ok (e, c + 1, remaining_length - 1)
    decode := fun mem c n e => (e, c + n, (List.range n).map (fun i => (mem (c + i) : Int)))
    postprocess_decode := fun e => e }

/-- The freshly constructed composed predictor of the instance. -/
def example_state : ComposedPredictor Nat (Nat × Int) Nat Int Unit :=
  ComposedPredictor.construct [example_predictor 0, example_predictor 1, example_predictor 2]
    example_encoder 0

/-- Blocks of a grid with up to three axes: a range is its list of extents, an
iterator is the triple of offsets from the start of the block, and `move` adds
the given offsets axis by axis (an axis without offset is not moved). -/
def grid_range : RangeOps (Int × Int × Int) (List Nat) :=
  { get_dimensions := fun dims => dims
    begin := fun _ => (0, 0, 0)
    move := fun it offsets =>
      (it.1 + offsets.getD 0 0, it.2.1 + offsets.getD 1 0, it.2.2 + offsets.getD 2 0) }

/-- Predictor `k` of the grid instance: at the point `(x, y, z)` it costs
`k * x + y * z + 1`; a commit adds `1` to its counter. -/
def grid_predictor (k : Int) : VirtualPredictor Nat (Int × Int × Int) (List Nat) Int :=
  { state := 0
    precompress_block := fun _ st => st
    precompress_block_commit := fun st => st + 1
    predecompress_block := fun _ st => st
    save := fun st => [st % 256]
    load := fun mem c remaining_length _ =>
      if remaining_length = 0 then Except.error Fault.fatal
      else Except.ok (mem c, c + 1, remaining_length - 1)
    predict := fun _ _ => 0
    estimate_error := fun _ it => k * it.1 + it.2.1 * it.2.2 + 1 }

/-- The freshly constructed composed predictor of the grid instance, with the
predictors `3` and `1`. -/
def grid_state : ComposedPredictor Nat (Int × Int × Int) (List Nat) Int Unit :=
  ComposedPredictor.construct [grid_predictor 3, grid_predictor 1] example_encoder 0

end Instance

end SZ

namespace SZ

section Lemmas

variable {σ ι ρ κ ε : Type}

/-! ### `std::min_element` -/

theorem min_element_loop_spec [LinearOrder κ] (l : List κ) :
    ∀ (xs : List κ) (i smallest : Nat) (v : κ), l.drop i = xs → l[smallest]? = some v →
      (∀ (j : Nat) (y : κ), j < i → l[j]? = some y → v ≤ y) →
      (∀ (j : Nat) (y : κ), j < smallest → l[j]? = some y → v < y) →
      ∃ w, l[min_element_loop xs i smallest v]? = some w ∧
        (∀ (j : Nat) (y : κ), l[j]? = some y → w ≤ y) ∧
        (∀ (j : Nat) (y : κ), j < min_element_loop xs i smallest v → l[j]? = some y → w < y) := by
  intro xs
  induction xs with
  | nil =>
    intro i smallest v hdrop hv hle hlt
    refine ⟨v, by simpa [min_element_loop] using hv, ?_, by simpa [min_element_loop] using hlt⟩
    intro j y hy
    have hlen : l.length ≤ i := List.drop_eq_nil_iff.mp hdrop
    have hj : j < l.length := (List.getElem?_eq_some_iff.mp hy).1
    exact hle j y (by omega) hy
  | cons x xs ih =>
    intro i smallest v hdrop hv hle hlt
    have hi : l[i]? = some x := by
      have := congrArg (fun t => t[0]?) hdrop
      simpa [List.getElem?_drop] using this
    have hdrop1 : l.drop (i + 1) = xs := by
      have := congrArg (fun t => t.drop 1) hdrop
      simpa [List.drop_drop, Nat.add_comm] using this
    by_cases hx : x < v
    · simp only [min_element_loop, if_pos hx]
      apply ih (i + 1) i x hdrop1 hi
      · intro j y hj hy
        rcases Nat.lt_succ_iff_lt_or_eq.mp hj with h | h
        · exact le_trans (le_of_lt hx) (hle j y h hy)
        · subst h
          rw [hi] at hy
          exact le_of_eq (Option.some.inj hy)
      · intro j y hj hy
        exact lt_of_lt_of_le hx (hle j y hj hy)
    · simp only [min_element_loop, if_neg hx]
      apply ih (i + 1) smallest v hdrop1 hv
      · intro j y hj hy
        rcases Nat.lt_succ_iff_lt_or_eq.mp hj with h | h
        · exact hle j y h hy
        · subst h
          rw [hi] at hy
          have : x = y := Option.some.inj hy
          subst this
          exact not_lt.mp hx
      · exact hlt

/-- On a non-empty list `min_element` is the first index holding a smallest
value: the value there is below every other one and strictly below every
earlier one. -/
theorem min_element_spec [LinearOrder κ] (l : List κ) (hne : l ≠ []) :
    ∃ w, l[min_element l]? = some w ∧ (∀ (j : Nat) (y : κ), l[j]? = some y → w ≤ y) ∧
      (∀ (j : Nat) (y : κ), j < min_element l → l[j]? = some y → w < y) := by
  cases l with
  | nil => exact absurd rfl hne
  | cons x xs =>
    simp only [min_element]
    apply min_element_loop_spec (x :: xs) xs 1 0 x
    · simp
    · simp
    · intro j y hj hy
      have : j = 0 := by omega
      subst this
      simp at hy
      exact le_of_eq hy
    · intro j y hj
      omega

theorem min_element_lt_length [LinearOrder κ] (l : List κ) (hne : l ≠ []) :
    min_element l < l.length := by
  obtain ⟨w, hw, _⟩ := min_element_spec l hne
  exact (List.getElem?_eq_some_iff.mp hw).1

theorem min_element_is_first_argmin [LinearOrder κ] (l : List κ) (hne : l ≠ []) :
    is_first_argmin l (min_element l) := by
  obtain ⟨w, hw, hle, hlt⟩ := min_element_spec l hne
  refine ⟨⟨w, hw, hle⟩, ?_⟩
  rintro k hk ⟨w', hw', hle'⟩
  exact absurd (hle' _ w hw) (not_le.mpr (hlt k w' hk hw'))

/-! ### What `estimate_error` leaves alone -/

theorem Frame.refl (s : ComposedPredictor σ ι ρ κ ε) : Frame s s :=
  ⟨rfl, rfl, rfl, rfl, rfl, rfl, [], by simp, by simp⟩

theorem Frame.calls_grow {s t : ComposedPredictor σ ι ρ κ ε} (h : Frame s t) :
    s.calls <+: t.calls := by
  obtain ⟨_, _, _, _, _, _, new, hnew, _⟩ := h
  exact ⟨new, hnew.symm⟩

theorem Frame.trans {s t u : ComposedPredictor σ ι ρ κ ε} (h₁ : Frame s t) (h₂ : Frame t u) :
    Frame s u := by
  obtain ⟨a1, a2, a3, a4, a5, a6, n1, a7, a8⟩ := h₁
  obtain ⟨b1, b2, b3, b4, b5, b6, n2, b7, b8⟩ := h₂
  refine ⟨b1.trans a1, b2.trans a2, b3.trans a3, b4.trans a4, b5.trans a5, b6.trans a6,
    n1 ++ n2, by rw [b7, a7, List.append_assoc], ?_⟩
  intro c hc
  rcases List.mem_append.mp hc with h | h
  · exact a8 c h
  · exact b8 c h

section Estimate

variable [LinearOrder κ] [AddCommMonoid κ]

theorem fill_zero_frame (s : ComposedPredictor σ ι ρ κ ε) : Frame s (fill_zero s) :=
  ⟨rfl, rfl, rfl, rfl, rfl, by simp [fill_zero], [], by simp [fill_zero], by simp⟩

theorem accumulate_frame (p : Nat) (iter : ι) (s : ComposedPredictor σ ι ρ κ ε) :
    Frame s (accumulate p iter s) := by
  unfold accumulate
  split
  · exact Frame.refl s
  · exact ⟨rfl, rfl, rfl, rfl, rfl, by simp, _, rfl, by simp [Call.is_estimate]⟩

theorem foldl_frame (body : Nat → ComposedPredictor σ ι ρ κ ε → ComposedPredictor σ ι ρ κ ε)
    (hbody : ∀ p s, Frame s (body p s)) :
    ∀ (ps : List Nat) (s : ComposedPredictor σ ι ρ κ ε),
      Frame s (ps.foldl (fun t p => body p t) s) := by
  intro ps
  induction ps with
  | nil => intro s; exact Frame.refl s
  | cons p ps ih => intro s; exact (hbody p s).trans (ih (body p s))

theorem for_predictors_frame
    (body : Nat → ComposedPredictor σ ι ρ κ ε → ComposedPredictor σ ι ρ κ ε)
    (hbody : ∀ p s, Frame s (body p s)) (s : ComposedPredictor σ ι ρ κ ε) :
    Frame s (for_predictors body s) :=
  foldl_frame body hbody _ s

theorem sweep_2_frame (R : RangeOps ι ρ) :
    ∀ (k : Nat) (iter1 iter2 : ι) (s : ComposedPredictor σ ι ρ κ ε),
      Frame s (sweep_2 R k iter1 iter2 s) := by
  intro k
  induction k with
  | zero => intro _ _ s; exact Frame.refl s
  | succ k ih =>
    intro iter1 iter2 s
    simp only [sweep_2]
    refine Frame.trans (for_predictors_frame _ ?_ s) (ih _ _ _)
    intro p t
    exact (accumulate_frame p iter1 t).trans (accumulate_frame p iter2 _)

theorem sweep_3_frame (R : RangeOps ι ρ) :
    ∀ (k : Nat) (iter1 iter2 iter3 iter4 : ι) (s : ComposedPredictor σ ι ρ κ ε),
      Frame s (sweep_3 R k iter1 iter2 iter3 iter4 s) := by
  intro k
  induction k with
  | zero => intro _ _ _ _ s; exact Frame.refl s
  | succ k ih =>
    intro iter1 iter2 iter3 iter4 s
    simp only [sweep_3]
    refine Frame.trans (for_predictors_frame _ ?_ s) (ih _ _ _ _ _)
    intro p t
    exact ((accumulate_frame p iter1 t).trans (accumulate_frame p iter2 _)).trans
      ((accumulate_frame p iter3 _).trans (accumulate_frame p iter4 _))

theorem estimate_error_frame (N : Nat) (R : RangeOps ι ρ) (iter : ι) (min_dimension : Int)
    (s : ComposedPredictor σ ι ρ κ ε) : Frame s (estimate_error N R iter min_dimension s) := by
  unfold estimate_error
  split
  · refine (fill_zero_frame s).trans (for_predictors_frame _ ?_ _)
    intro p t
    exact (accumulate_frame p iter t).trans (accumulate_frame p _ _)
  · split
    · exact (fill_zero_frame s).trans (sweep_2_frame R _ _ _ _)
    · exact (fill_zero_frame s).trans (sweep_3_frame R _ _ _ _ _ _)

/-! ### `precompress_block`, member by member -/

theorem precompress_block_predictors (N : Nat) (R : RangeOps ι ρ) (range : ρ)
    (s : ComposedPredictor σ ι ρ κ ε) :
    (precompress_block N R range s).predictors =
      s.predictors.map (VirtualPredictor.do_precompress_block range) := by
  obtain ⟨h1, _⟩ := estimate_error_frame N R (R.begin range)
    (min_dimension_of (R.get_dimensions range)) (broadcast_precompress_block range s)
  simp only [precompress_block, h1]
  rfl

theorem precompress_block_length (N : Nat) (R : RangeOps ι ρ) (range : ρ)
    (s : ComposedPredictor σ ι ρ κ ε) :
    (precompress_block N R range s).predictors.length = s.predictors.length := by
  rw [precompress_block_predictors, List.length_map]

theorem precompress_block_sid (N : Nat) (R : RangeOps ι ρ) (range : ρ)
    (s : ComposedPredictor σ ι ρ κ ε) :
    (precompress_block N R range s).sid =
      ((min_element (precompress_block N R range s).predict_error : Nat) : Int) := rfl

theorem precompress_block_selection (N : Nat) (R : RangeOps ι ρ) (range : ρ)
    (s : ComposedPredictor σ ι ρ κ ε) :
    (precompress_block N R range s).selection =
      s.selection ++ [(precompress_block N R range s).sid] := by
  obtain ⟨_, h2, _⟩ := estimate_error_frame N R (R.begin range)
    (min_dimension_of (R.get_dimensions range)) (broadcast_precompress_block range s)
  simp only [precompress_block, h2]
  rfl

theorem precompress_block_current_index (N : Nat) (R : RangeOps ι ρ) (range : ρ)
    (s : ComposedPredictor σ ι ρ κ ε) :
    (precompress_block N R range s).current_index = s.current_index := by
  obtain ⟨_, _, _, _, h5, _⟩ := estimate_error_frame N R (R.begin range)
    (min_dimension_of (R.get_dimensions range)) (broadcast_precompress_block range s)
  simp only [precompress_block, h5]
  rfl

theorem precompress_block_encoder (N : Nat) (R : RangeOps ι ρ) (range : ρ)
    (s : ComposedPredictor σ ι ρ κ ε) :
    (precompress_block N R range s).selection_encoder = s.selection_encoder := by
  obtain ⟨_, _, h3, _⟩ := estimate_error_frame N R (R.begin range)
    (min_dimension_of (R.get_dimensions range)) (broadcast_precompress_block range s)
  simp only [precompress_block, h3]
  rfl

theorem precompress_block_error_length (N : Nat) (R : RangeOps ι ρ) (range : ρ)
    (s : ComposedPredictor σ ι ρ κ ε) :
    (precompress_block N R range s).predict_error.length = s.predict_error.length := by
  obtain ⟨_, _, _, _, _, h6, _⟩ := estimate_error_frame N R (R.begin range)
    (min_dimension_of (R.get_dimensions range)) (broadcast_precompress_block range s)
  simp only [precompress_block, h6]
  rfl

/-- After a block selection on a non-empty list `sid` is a valid index. -/
theorem precompress_block_sid_valid (N : Nat) (R : RangeOps ι ρ) (range : ρ)
    (s : ComposedPredictor σ ι ρ κ ε) (hne : s.predictors ≠ [])
    (hlen : s.predict_error.length = s.predictors.length) :
    0 ≤ (precompress_block N R range s).sid ∧
      (precompress_block N R range s).sid.toNat < s.predictors.length := by
  have hpos : 0 < s.predictors.length := List.length_pos.mpr hne
  have hl := precompress_block_error_length N R range s
  have hne2 : (precompress_block N R range s).predict_error ≠ [] := by
    intro h
    rw [h] at hl
    simp at hl
    omega
  have := min_element_lt_length _ hne2
  rw [precompress_block_sid]
  constructor
  · exact Int.natCast_nonneg _
  · simp only [Int.toNat_ofNat]
    omega

/-! ### Counting the `estimate_error` calls -/

theorem accumulate_calls (p : Nat) (iter : ι) (s : ComposedPredictor σ ι ρ κ ε)
    (hp : p < s.predictors.length) :
    (accumulate p iter s).calls = s.calls ++ [Call.estimate_error p iter] := by
  simp [accumulate, List.getElem?_eq_getElem hp]

theorem accumulate_count (p q : Nat) (iter : ι) (s : ComposedPredictor σ ι ρ κ ε)
    (hp : p < s.predictors.length) :
    (accumulate p iter s).calls.countP (Call.is_estimate_error q) =
      s.calls.countP (Call.is_estimate_error q) + if p = q then 1 else 0 := by
  rw [accumulate_calls p iter s hp, List.countP_append]
  by_cases h : p = q <;> simp [Call.is_estimate_error, h]

theorem count_range (n q : Nat) : (List.range n).count q = if q < n then 1 else 0 := by
  split
  · exact List.count_eq_one_of_mem (List.nodup_range n) (List.mem_range.mpr ‹_›)
  · exact List.count_eq_zero_of_not_mem (fun h => ‹¬ q < n› (List.mem_range.mp h))

theorem foldl_count (body : Nat → ComposedPredictor σ ι ρ κ ε → ComposedPredictor σ ι ρ κ ε)
    (c q : Nat) (hframe : ∀ p s, Frame s (body p s))
    (hcount : ∀ p s, p < s.predictors.length →
      (body p s).calls.countP (Call.is_estimate_error q) =
        s.calls.countP (Call.is_estimate_error q) + if p = q then c else 0) :
    ∀ (ps : List Nat) (s : ComposedPredictor σ ι ρ κ ε), (∀ p ∈ ps, p < s.predictors.length) →
      (ps.foldl (fun t p => body p t) s).calls.countP (Call.is_estimate_error q) =
        s.calls.countP (Call.is_estimate_error q) + c * ps.count q := by
  intro ps
  induction ps with
  | nil => intro s _; simp
  | cons p ps ih =>
    intro s hps
    have hp : p < s.predictors.length := hps p (List.mem_cons_self _ _)
    have hpred : (body p s).predictors = s.predictors := (hframe p s).1
    rw [List.foldl_cons, ih (body p s) (by
      intro r hr
      rw [hpred]
      exact hps r (List.mem_cons_of_mem _ hr)), hcount p s hp, List.count_cons]
    by_cases h : p = q
    · subst h
      simp only [if_true, beq_self_eq_true, Nat.mul_add, Nat.mul_one]
      omega
    · have h2 : ¬ (p == q) = true := by simpa using h
      simp [h, h2]

theorem for_predictors_count
    (body : Nat → ComposedPredictor σ ι ρ κ ε → ComposedPredictor σ ι ρ κ ε)
    (c q : Nat) (hframe : ∀ p s, Frame s (body p s))
    (hcount : ∀ p s, p < s.predictors.length →
      (body p s).calls.countP (Call.is_estimate_error q) =
        s.calls.countP (Call.is_estimate_error q) + if p = q then c else 0)
    (s : ComposedPredictor σ ι ρ κ ε) (hq : q < s.predictors.length) :
    (for_predictors body s).calls.countP (Call.is_estimate_error q) =
      s.calls.countP (Call.is_estimate_error q) + c := by
  unfold for_predictors
  rw [foldl_count body c q hframe hcount _ s (fun p hp => List.mem_range.mp hp), count_range,
    if_pos hq, Nat.mul_one]

theorem body_2_frame (iter1 iter2 : ι) (p : Nat) (s : ComposedPredictor σ ι ρ κ ε) :
    Frame s (accumulate p iter2 (accumulate p iter1 s)) :=
  (accumulate_frame p iter1 s).trans (accumulate_frame p iter2 _)

theorem body_2_count (iter1 iter2 : ι) (p q : Nat) (s : ComposedPredictor σ ι ρ κ ε)
    (hp : p < s.predictors.length) :
    (accumulate p iter2 (accumulate p iter1 s)).calls.countP (Call.is_estimate_error q) =
      s.calls.countP (Call.is_estimate_error q) + if p = q then 2 else 0 := by
  have h1 : (accumulate p iter1 s).predictors = s.predictors := (accumulate_frame p iter1 s).1
  rw [accumulate_count p q iter2 _ (by rw [h1]; exact hp), accumulate_count p q iter1 s hp]
  split <;> simp

theorem body_4_frame (iter1 iter2 iter3 iter4 : ι) (p : Nat) (s : ComposedPredictor σ ι ρ κ ε) :
    Frame s (accumulate p iter4 (accumulate p iter3 (accumulate p iter2 (accumulate p iter1 s)))) :=
  (body_2_frame iter1 iter2 p s).trans (body_2_frame iter3 iter4 p _)

theorem body_4_count (iter1 iter2 iter3 iter4 : ι) (p q : Nat) (s : ComposedPredictor σ ι ρ κ ε)
    (hp : p < s.predictors.length) :
    (accumulate p iter4 (accumulate p iter3 (accumulate p iter2
      (accumulate p iter1 s)))).calls.countP (Call.is_estimate_error q) =
      s.calls.countP (Call.is_estimate_error q) + if p = q then 4 else 0 := by
  have h1 : (accumulate p iter2 (accumulate p iter1 s)).predictors = s.predictors :=
    (body_2_frame iter1 iter2 p s).1
  rw [body_2_count iter3 iter4 p q _ (by rw [h1]; exact hp), body_2_count iter1 iter2 p q s hp]
  split <;> simp

theorem sweep_2_count (R : RangeOps ι ρ) (q : Nat) :
    ∀ (k : Nat) (iter1 iter2 : ι) (s : ComposedPredictor σ ι ρ κ ε), q < s.predictors.length →
      (sweep_2 R k iter1 iter2 s).calls.countP (Call.is_estimate_error q) =
        s.calls.countP (Call.is_estimate_error q) + 2 * k := by
  intro k
  induction k with
  | zero => intro _ _ s _; simp [sweep_2]
  | succ k ih =>
    intro iter1 iter2 s hq
    have hf := for_predictors_frame (fun p t => accumulate p iter2 (accumulate p iter1 t))
      (body_2_frame iter1 iter2) s
    simp only [sweep_2]
    rw [ih _ _ _ (by rw [hf.1]; exact hq),
      for_predictors_count _ 2 q (body_2_frame iter1 iter2)
        (fun p t hp => body_2_count iter1 iter2 p q t hp) s hq]
    omega

theorem sweep_3_count (R : RangeOps ι ρ) (q : Nat) :
    ∀ (k : Nat) (iter1 iter2 iter3 iter4 : ι) (s : ComposedPredictor σ ι ρ κ ε),
      q < s.predictors.length →
      (sweep_3 R k iter1 iter2 iter3 iter4 s).calls.countP (Call.is_estimate_error q) =
        s.calls.countP (Call.is_estimate_error q) + 4 * k := by
  intro k
  induction k with
  | zero => intro _ _ _ _ s _; simp [sweep_3]
  | succ k ih =>
    intro iter1 iter2 iter3 iter4 s hq
    have hf := for_predictors_frame (fun p t =>
      accumulate p iter4 (accumulate p iter3 (accumulate p iter2 (accumulate p iter1 t))))
      (body_4_frame iter1 iter2 iter3 iter4) s
    simp only [sweep_3]
    rw [ih _ _ _ _ _ (by rw [hf.1]; exact hq),
      for_predictors_count _ 4 q (body_4_frame iter1 iter2 iter3 iter4)
        (fun p t hp => body_4_count iter1 iter2 iter3 iter4 p q t hp) s hq]
    omega

/-- The number of `estimate_error` calls on predictor `q` in the log grows, over
one `estimate_error` of the composed predictor, by `2` for rank 1 and by `2` or
`4` per loop iteration for the other ranks. -/
theorem estimate_error_count (N : Nat) (R : RangeOps ι ρ) (iter : ι) (min_dimension : Int)
    (s : ComposedPredictor σ ι ρ κ ε) (q : Nat) (hq : q < s.predictors.length) :
    (estimate_error N R iter min_dimension s).calls.countP (Call.is_estimate_error q) =
      s.calls.countP (Call.is_estimate_error q) +
        if N = 1 then 2 else if N = 2 then 2 * (min_dimension - 2).toNat
        else 4 * (min_dimension - 2).toNat := by
  have hz : (fill_zero s).predictors.length = s.predictors.length := rfl
  have hc : (fill_zero s).calls = s.calls := rfl
  unfold estimate_error
  split
  · unfold estimate_error_1
    rw [for_predictors_count _ 2 q (body_2_frame iter _)
      (fun p t hp => body_2_count iter _ p q t hp) _ (by rw [hz]; exact hq), hc]
  · split
    · unfold estimate_error_2
      rw [sweep_2_count R q _ _ _ _ (by rw [hz]; exact hq), hc]
    · unfold estimate_error_3
      rw [sweep_3_count R q _ _ _ _ _ _ (by rw [hz]; exact hq), hc]

theorem countP_calls_since (s t : ComposedPredictor σ ι ρ κ ε) (h : s.calls <+: t.calls)
    (f : Call ι ρ → Bool) :
    (calls_since s t).countP f + s.calls.countP f = t.calls.countP f := by
  obtain ⟨new, hnew⟩ := h
  rw [calls_since, ← hnew, List.drop_left, List.countP_append, Nat.add_comm]

end Estimate

/-! ### Decompression replay -/

section Replay

variable [LinearOrder κ] [AddCommMonoid κ]

theorem handle_eq_some (ps : List (VirtualPredictor σ ι ρ κ)) (e : Int) (h0 : 0 ≤ e)
    (h1 : e.toNat < ps.length) : handle ps e = some (ps[e.toNat]) := by
  simp [handle, h0, List.getElem?_eq_getElem h1]

theorem handle_eq_none (ps : List (VirtualPredictor σ ι ρ κ)) (e : Int)
    (h : e < 0 ∨ ps.length ≤ e.toNat) : handle ps e = none := by
  unfold handle
  rcases h with h | h
  · rw [if_neg (by omega)]
  · split
    · exact List.getElem?_eq_none h
    · rfl

theorem predecompress_block_ok (beyond : Nat → Int) (range : ρ)
    (s : ComposedPredictor σ ι ρ κ ε) (e : Int) (he : s.selection[s.current_index]? = some e)
    (h0 : 0 ≤ e) (h1 : e.toNat < s.predictors.length) :
    predecompress_block beyond range s = Except.ok
      { s with
        sid := e
        current_index := s.current_index + 1
        predictors := s.predictors.set e.toNat ((s.predictors[e.toNat]).do_predecompress_block range)
        calls := s.calls ++ [Call.predecompress_block e.toNat range] } := by
  have hget : s.selection.getD s.current_index (beyond s.current_index) = e := by
    rw [List.getD_eq_getElem?_getD, he]
    rfl
  simp only [predecompress_block, hget, handle_eq_some s.predictors e h0 h1]

theorem decompress_blocks_spec (beyond : Nat → Int) :
    ∀ (ranges : List ρ) (s : ComposedPredictor σ ι ρ κ ε),
      s.current_index + ranges.length ≤ s.selection.length →
      (∀ e ∈ (s.selection.drop s.current_index).take ranges.length,
        0 ≤ e ∧ e.toNat < s.predictors.length) →
      ∃ t, decompress_blocks beyond ranges s =
          Except.ok (t, (s.selection.drop s.current_index).take ranges.length) ∧
        t.selection = s.selection ∧ t.current_index = s.current_index + ranges.length ∧
        t.predictors.length = s.predictors.length ∧
        t.calls = s.calls ++ List.zipWith (fun e r => Call.predecompress_block e.toNat r)
          ((s.selection.drop s.current_index).take ranges.length) ranges := by
  intro ranges
  induction ranges with
  | nil =>
    intro s _ _
    exact ⟨s, by simp [decompress_blocks], rfl, rfl, rfl, by simp⟩
  | cons r rs ih =>
    intro s hlen hvalid
    simp only [List.length_cons] at hlen
    have hc : s.current_index < s.selection.length := by omega
    have he : s.selection[s.current_index]? = some (s.selection[s.current_index]) :=
      List.getElem?_eq_getElem hc
    have hdrop : (s.selection.drop s.current_index).take (rs.length + 1) =
        s.selection[s.current_index] :: (s.selection.drop (s.current_index + 1)).take rs.length := by
      rw [List.drop_eq_getElem_cons hc, List.take_succ_cons]
    simp only [List.length_cons, hdrop] at hvalid
    obtain ⟨h0, h1⟩ := hvalid _ (List.mem_cons_self _ _)
    have hstep := predecompress_block_ok beyond r s _ he h0 h1
    obtain ⟨t, ht, hsel, hcur, hpl, hcalls⟩ := ih
      { s with
        sid := s.selection[s.current_index]
        current_index := s.current_index + 1
        predictors := s.predictors.set (s.selection[s.current_index]).toNat
          ((s.predictors[(s.selection[s.current_index]).toNat]).do_predecompress_block r)
        calls := s.calls ++ [Call.predecompress_block (s.selection[s.current_index]).toNat r] }
      (by simp only; omega)
      (by
        intro e he'
        simp only [List.length_set]
        exact hvalid e (List.mem_cons_of_mem _ he'))
    refine ⟨t, ?_, hsel, ?_, ?_, ?_⟩
    · simp only [decompress_blocks, hstep, ht, List.length_cons, hdrop]
    · rw [hcur]
      simp only [List.length_cons]
      omega
    · rw [hpl]
      simp
    · rw [hcalls]
      simp only [List.length_cons, hdrop, List.zipWith_cons_cons, List.append_assoc,
        List.singleton_append]

theorem precompress_block_calls (N : Nat) (R : RangeOps ι ρ) (range : ρ)
    (s : ComposedPredictor σ ι ρ κ ε) :
    ∃ new, (precompress_block N R range s).calls =
        s.calls ++ ((List.range s.predictors.length).map (fun p => Call.precompress_block p range)
          ++ new) ∧
      ∀ c ∈ new, Call.is_estimate c = true := by
  obtain ⟨_, _, _, _, _, _, new, hnew, hall⟩ := estimate_error_frame N R (R.begin range)
    (min_dimension_of (R.get_dimensions range)) (broadcast_precompress_block range s)
  refine ⟨new, ?_, hall⟩
  have hb : (broadcast_precompress_block range s).calls = s.calls ++
      (List.range s.predictors.length).map (fun p => Call.precompress_block p range) := rfl
  simp only [precompress_block, hnew, hb, List.append_assoc]

theorem precompress_block_commit_ok (s : ComposedPredictor σ ι ρ κ ε) (h0 : 0 ≤ s.sid)
    (h1 : s.sid.toNat < s.predictors.length) :
    precompress_block_commit s = Except.ok
      { s with
        predictors := s.predictors.set s.sid.toNat (s.predictors[s.sid.toNat]).do_commit
        calls := s.calls ++ [Call.precompress_block_commit s.sid.toNat] } := by
  simp only [precompress_block_commit, handle_eq_some s.predictors s.sid h0 h1]

end Replay

/-! ### Serialisation -/

section Serial

variable [LinearOrder κ] [AddCommMonoid κ]

theorem range_eight : List.range 8 = [0, 1, 2, 3, 4, 5, 6, 7] := by decide

theorem size_t_bytes_length (n : Nat) : (size_t_bytes n).length = 8 := by
  simp [size_t_bytes]

theorem read_size_t_unfold (mem : Memory) (a : Nat) :
    read_size_t mem a = mem a % 256 + (mem (a + 1) % 256 * 256 + (mem (a + 2) % 256 * 65536
      + (mem (a + 3) % 256 * 16777216 + (mem (a + 4) % 256 * 4294967296
      + (mem (a + 5) % 256 * 1099511627776 + (mem (a + 6) % 256 * 281474976710656
      + mem (a + 7) % 256 * 72057594037927936)))))) := by
  simp only [read_size_t, range_eight, List.map_cons, List.map_nil, List.sum_cons, List.sum_nil]
  norm_num

/-- Reading back the eight bytes of `n` gives `n` modulo `2 ^ 64`. -/
theorem read_size_t_of_bytes (mem : Memory) (a n : Nat)
    (h : ∀ i, i < 8 → mem (a + i) = n / 256 ^ i % 256) : read_size_t mem a = n % 2 ^ 64 := by
  have h0 := h 0 (by omega)
  have h1 := h 1 (by omega)
  have h2 := h 2 (by omega)
  have h3 := h 3 (by omega)
  have h4 := h 4 (by omega)
  have h5 := h 5 (by omega)
  have h6 := h 6 (by omega)
  have h7 := h 7 (by omega)
  norm_num at h0 h1 h2 h3 h4 h5 h6 h7
  rw [read_size_t_unfold, h0, h1, h2, h3, h4, h5, h6, h7]
  omega

theorem save_predictors_spec :
    ∀ (ps : List (VirtualPredictor σ ι ρ κ)) (p : Nat) (out : List Nat) (c : Nat)
      (log : List (Call ι ρ)),
      save_predictors ps p (out, c, log) =
        (out ++ (ps.map (fun P => P.save P.state)).flatten,
          c + (ps.map (fun P => P.save P.state)).flatten.length,
          log ++ (List.range' p ps.length).map Call.save) := by
  intro ps
  induction ps with
  | nil => intro p out c log; simp [save_predictors]
  | cons P ps ih =>
    intro p out c log
    simp only [save_predictors, ih, List.map_cons, List.flatten_cons, List.length_append,
      List.append_assoc, List.length_cons, List.range'_succ, List.singleton_append,
      Nat.add_assoc]

theorem holds_append (mem : Memory) (c : Nat) (a b : List Nat) :
    holds mem c (a ++ b) ↔ holds mem c a ∧ holds mem (c + a.length) b := by
  constructor
  · intro h
    constructor
    · intro i hi
      have := h i (by rw [List.length_append]; omega)
      rw [this, List.getElem_append_left hi]
    · intro i hi
      have := h (a.length + i) (by rw [List.length_append]; omega)
      rw [Nat.add_assoc, this, List.getElem_append_right (by omega)]
      simp
  · rintro ⟨ha, hb⟩ i hi
    by_cases h : i < a.length
    · rw [List.getElem_append_left h]
      exact ha i h
    · have hi' : i - a.length < b.length := by
        rw [List.length_append] at hi
        omega
      have := hb (i - a.length) hi'
      rw [List.getElem_append_right (by omega), ← this]
      congr 1
      omega

theorem save_bytes (c : Nat) (s : ComposedPredictor σ ι ρ κ ε) :
    (save c s).2.1 =
      (s.predictors.map (fun P => P.save P.state)).flatten ++
        (size_t_bytes (s.selection.length % 2 ^ 64) ++
          (coder_header s.selection_encoder s.selection (4 * s.predictors.length) ++
            coder_stream s.selection_encoder s.selection (4 * s.predictors.length))) := by
  simp only [save, save_predictors_spec, List.nil_append, List.append_assoc, coder_header,
    coder_stream]

theorem load_predictors_spec (mem : Memory) :
    ∀ (fps sps : List (VirtualPredictor σ ι ρ κ)),
      List.Forall₂ (load_consumes_save mem) fps sps →
      ∀ (p c remaining_length : Nat),
        holds mem c (sps.map (fun P => P.save P.state)).flatten →
        (sps.map (fun P => P.save P.state)).flatten.length ≤ remaining_length →
        ∃ ps log, load_predictors mem fps p c remaining_length =
            Except.ok (ps, c + (sps.map (fun P => P.save P.state)).flatten.length,
              remaining_length - (sps.map (fun P => P.save P.state)).flatten.length, log) ∧
          ps.length = fps.length := by
  intro fps sps h
  induction h with
  | nil =>
    intro p c remaining_length _ _
    exact ⟨[], [], by simp [load_predictors], rfl⟩
  | @cons L P fps sps hLP _ ih =>
    intro p c remaining_length hmem hrem
    simp only [List.map_cons, List.flatten_cons] at hmem hrem ⊢
    rw [List.length_append] at hrem ⊢
    obtain ⟨h1, h2⟩ := (holds_append mem c _ _).mp hmem
    obtain ⟨st, hst⟩ := hLP c remaining_length h1 (by omega)
    obtain ⟨ps, log, hps, hlen⟩ := ih (p + 1) (c + (P.save P.state).length)
      (remaining_length - (P.save P.state).length) h2 (by omega)
    refine ⟨{ L with state := st } :: ps, Call.load p :: log, ?_, by simp [hlen]⟩
    simp only [load_predictors, hst, hps]
    congr 3
    · omega
    · congr 1
      omega

theorem load_ok (mem : Memory) (c remaining_length : Nat) (f : ComposedPredictor σ ι ρ κ ε)
    (ps : List (VirtualPredictor σ ι ρ κ)) (c1 rem1 : Nat) (log : List (Call ι ρ)) (e : ε)
    (c3 rem3 : Nat)
    (hp : load_predictors mem f.predictors 0 c remaining_length = Except.ok (ps, c1, rem1, log))
    (he : f.selection_encoder.load mem (c1 + 8) rem1 f.selection_encoder.state =
      Except.ok (e, c3, rem3)) :
    ∃ t, load mem c remaining_length f = Except.ok (t,
        (f.selection_encoder.decode mem c3 (read_size_t mem c1) e).2.1, rem3) ∧
      t.selection = (f.selection_encoder.decode mem c3 (read_size_t mem c1) e).2.2 ∧
      t.predictors = ps ∧ t.current_index = f.current_index ∧ t.calls = f.calls ++ log := by
  simp only [load, hp, he]
  exact ⟨_, rfl, rfl, rfl, rfl, rfl⟩

theorem load_after_save (mem : Memory) (c remaining_length : Nat)
    (s f : ComposedPredictor σ ι ρ κ ε)
    (hpred : List.Forall₂ (load_consumes_save mem) f.predictors s.predictors)
    (hcoder : decode_inverts_encode mem f.selection_encoder s.selection_encoder s.selection
      (4 * s.predictors.length))
    (hsize : s.selection.length < 2 ^ 64)
    (hmem : holds mem c (save c s).2.1) (hrem : (save c s).2.1.length ≤ remaining_length) :
    ∃ t c' rem', load mem c remaining_length f = Except.ok (t, c', rem') ∧
      t.selection = s.selection ∧ t.predictors.length = f.predictors.length ∧
      t.current_index = f.current_index := by
  have hmod : s.selection.length % 2 ^ 64 = s.selection.length := Nat.mod_eq_of_lt hsize
  rw [save_bytes, hmod] at hmem hrem
  simp only [List.length_append, size_t_bytes_length] at hrem
  obtain ⟨hm1, hm23⟩ := (holds_append mem c _ _).mp hmem
  obtain ⟨hm2, hm3⟩ := (holds_append mem _ _ _).mp hm23
  rw [size_t_bytes_length] at hm3
  obtain ⟨ps, log, hps, hlen⟩ := load_predictors_spec mem f.predictors s.predictors hpred 0 c
    remaining_length hm1 (by omega)
  have hcount : read_size_t mem
      (c + (s.predictors.map (fun P => P.save P.state)).flatten.length) = s.selection.length := by
    rw [read_size_t_of_bytes mem _ s.selection.length, hmod]
    intro i hi
    have hi' : i < (size_t_bytes s.selection.length).length := by
      rw [size_t_bytes_length]; exact hi
    rw [hm2 i hi']
    simp [size_t_bytes]
  obtain ⟨e, rem, hload, hdec⟩ := hcoder _
    (remaining_length - (s.predictors.map (fun P => P.save P.state)).flatten.length) hm3
    (by omega)
  obtain ⟨t, ht, hsel, hpreds, hcur, _⟩ := load_ok mem c remaining_length f ps _ _ log e _ rem
    hps hload
  refine ⟨t, _, _, ht, ?_, ?_, hcur⟩
  · rw [hsel, hcount, hdec]
  · rw [hpreds, hlen]

theorem compress_blocks_cons (N : Nat) (R : RangeOps ι ρ) (range : ρ) (rest : List ρ)
    (s : ComposedPredictor σ ι ρ κ ε) :
    compress_blocks N R (range :: rest) s =
      ((compress_blocks N R rest (precompress_block N R range s)).1,
        (precompress_block N R range s).sid ::
          (compress_blocks N R rest (precompress_block N R range s)).2) := rfl

theorem compress_blocks_spec (N : Nat) (R : RangeOps ι ρ) :
    ∀ (ranges : List ρ) (s : ComposedPredictor σ ι ρ κ ε), s.predictors ≠ [] →
      s.predict_error.length = s.predictors.length →
      (compress_blocks N R ranges s).1.selection =
        s.selection ++ (compress_blocks N R ranges s).2 ∧
      (compress_blocks N R ranges s).1.predictors.length = s.predictors.length ∧
      (compress_blocks N R ranges s).1.current_index = s.current_index ∧
      (compress_blocks N R ranges s).1.selection_encoder = s.selection_encoder ∧
      (compress_blocks N R ranges s).2.length = ranges.length ∧
      ∀ e ∈ (compress_blocks N R ranges s).2, 0 ≤ e ∧ e.toNat < s.predictors.length := by
  intro ranges
  induction ranges with
  | nil => intro s _ _; simp [compress_blocks]
  | cons r rest ih =>
    intro s hne hlen
    have hl := precompress_block_length N R r s
    have hne' : (precompress_block N R r s).predictors ≠ [] := by
      intro h
      rw [h] at hl
      exact hne (List.length_eq_zero.mp hl.symm)
    obtain ⟨h1, h2, h3, h4, h5, h6⟩ := ih (precompress_block N R r s) hne'
      (by rw [precompress_block_error_length, hl, hlen])
    rw [compress_blocks_cons]
    refine ⟨?_, ?_, ?_, ?_, ?_, ?_⟩
    · simp only [h1, precompress_block_selection, List.append_assoc, List.singleton_append]
    · rw [h2, hl]
    · rw [h3, precompress_block_current_index]
    · rw [h4, precompress_block_encoder]
    · simp [h5]
    · intro e he
      rcases List.mem_cons.mp he with h | h
      · rw [h]
        exact precompress_block_sid_valid N R r s hne hlen
      · rw [← hl]
        exact h6 e h

/-! ### The contracts hold in the concrete instance -/

theorem holds_memory_of (bytes : List Nat) : holds (memory_of bytes) 0 bytes := by
  intro i hi
  simp [memory_of, List.getD_eq_getElem?_getD, List.getElem?_eq_getElem hi]

theorem example_predictor_contract (mem : Memory) (k : Nat)
    (P : VirtualPredictor Nat (Nat × Int) Nat Int) (hP : (P.save P.state).length = 1) :
    load_consumes_save mem (example_predictor k) P := by
  intro c remaining_length _ hrem
  rw [hP] at hrem ⊢
  refine ⟨mem c, ?_⟩
  simp only [example_predictor]
  rw [if_neg (by omega)]

theorem example_encoder_contract (mem : Memory) (bins : List Int) (hint : Nat)
    (hb : ∀ b ∈ bins, 0 ≤ b ∧ b < 256) :
    decode_inverts_encode mem example_encoder example_encoder bins hint := by
  intro c remaining_length hmem hrem
  have hh : coder_header example_encoder bins hint = [42] := rfl
  have hs : coder_stream example_encoder bins hint = bins.map (fun b => b.toNat % 256) := rfl
  rw [hh, hs] at hmem hrem
  rw [hh]
  simp only [List.length_singleton, List.length_map] at hrem ⊢
  obtain ⟨_, h2⟩ := (holds_append mem c _ _).mp hmem
  simp only [List.length_singleton] at h2
  refine ⟨(), remaining_length - 1, ?_, ?_⟩
  · simp only [example_encoder]
    rw [if_neg (by omega)]
  · simp only [example_encoder]
    apply List.ext_getElem
    · simp
    · intro i h1 hi
      have hi' : i < (bins.map (fun b => b.toNat % 256)).length := by simpa using hi
      have := h2 i hi'
      obtain ⟨b0, b1⟩ := hb _ (List.getElem_mem hi)
      simp only [List.getElem_map, List.getElem_range, this]
      omega

end Serial

/-! ### Usage accounting -/

section Usage

theorem sum_set_succ : ∀ (l : List Nat) (i : Nat), i < l.length →
    (l.set i (l.getD i 0 + 1)).sum = l.sum + 1 := by
  intro l
  induction l with
  | nil => intro i hi; simp at hi
  | cons x xs ih =>
    intro i hi
    cases i with
    | zero => simp; omega
    | succ i =>
      have hi' : i < xs.length := by simpa using hi
      have := ih i hi'
      simp only [List.set_cons_succ, List.sum_cons, List.getD_cons_succ, this]
      omega

theorem count_selection_spec : ∀ (sel : List Int) (cnt : List Nat) (cnt_total : Nat),
    (∀ e ∈ sel, 0 ≤ e ∧ e.toNat < cnt.length) →
    ∃ cnt', count_selection sel (cnt, cnt_total) = Except.ok (cnt', cnt_total + sel.length) ∧
      cnt'.length = cnt.length ∧ cnt'.sum = cnt.sum + sel.length := by
  intro sel
  induction sel with
  | nil => intro cnt cnt_total _; exact ⟨cnt, rfl, rfl, rfl⟩
  | cons e rest ih =>
    intro cnt cnt_total hvalid
    have he := hvalid e (List.mem_cons_self _ _)
    obtain ⟨cnt', h1, h2, h3⟩ := ih (cnt.set e.toNat (cnt.getD e.toNat 0 + 1)) (cnt_total + 1)
      (by
        intro x hx
        rw [List.length_set]
        exact hvalid x (List.mem_cons_of_mem _ hx))
    refine ⟨cnt', ?_, ?_, ?_⟩
    · simp only [count_selection, if_pos he, h1, List.length_cons]
      congr 2
      omega
    · rw [h2, List.length_set]
    · rw [h3, sum_set_succ cnt e.toNat he.2, List.length_cons]
      omega

theorem range_map_getD (l : List Nat) : (List.range l.length).map (fun i => l.getD i 0) = l := by
  apply List.ext_getElem
  · simp
  · intro i h1 h2
    simp [List.getD_eq_getElem?_getD, List.getElem?_eq_getElem h2]

theorem percentage_sum_map (cnt_total : Nat) (h : cnt_total ≠ 0) : ∀ l : List Nat,
    percentage_sum (l.map (fun c => percentage c cnt_total)) =
      some (((l.sum : Nat) : ℚ) / (cnt_total : ℚ)) := by
  intro l
  induction l with
  | nil => simp [percentage_sum]
  | cons x xs ih =>
    have hx : percentage x cnt_total = some ((x : ℚ) / (cnt_total : ℚ)) := by
      simp [percentage, h]
    rw [List.map_cons, hx]
    simp only [percentage_sum, ih, List.sum_cons, Nat.cast_add, add_div]

end Usage

/-! ### The selection history grows by one entry per block -/

section Sampling

variable [LinearOrder κ] [AddCommMonoid κ]

theorem compress_blocks_history (N : Nat) (R : RangeOps ι ρ) :
    ∀ (ranges : List ρ) (s : ComposedPredictor σ ι ρ κ ε),
      (compress_blocks N R ranges s).1.selection =
        s.selection ++ (compress_blocks N R ranges s).2 ∧
      (compress_blocks N R ranges s).2.length = ranges.length := by
  intro ranges
  induction ranges with
  | nil => intro s; simp [compress_blocks]
  | cons r rest ih =>
    intro s
    obtain ⟨h1, h2⟩ := ih (precompress_block N R r s)
    rw [compress_blocks_cons]
    refine ⟨?_, by simp [h2]⟩
    simp only [h1, precompress_block_selection, List.append_assoc, List.singleton_append]

/-! ### The values accumulated by `estimate_error` -/

theorem point_cost_of_some (ps : List (VirtualPredictor σ ι ρ κ)) (p : Nat) (iter : ι)
    (P : VirtualPredictor σ ι ρ κ) (hP : ps[p]? = some P) :
    point_cost ps p iter = P.estimate_error P.state iter := by
  simp [point_cost, hP]

theorem accumulate_value (p q : Nat) (iter : ι) (s : ComposedPredictor σ ι ρ κ ε)
    (hp : p < s.predictors.length) (hl : s.predict_error.length = s.predictors.length) :
    (accumulate p iter s).predict_error.getD q 0 =
      s.predict_error.getD q 0 + if q = p then point_cost s.predictors p iter else 0 := by
  have hP : s.predictors[p]? = some (s.predictors[p]) := List.getElem?_eq_getElem hp
  have hp' : p < s.predict_error.length := by rw [hl]; exact hp
  simp only [accumulate, hP, point_cost, List.getD_eq_getElem?_getD, List.getElem?_set]
  by_cases h : q = p
  · subst h
    simp [hp']
  · rw [if_neg (fun h' => h h'.symm), if_neg h, add_zero]

theorem body_2_value (iter1 iter2 : ι) (p q : Nat) (s : ComposedPredictor σ ι ρ κ ε)
    (hp : p < s.predictors.length) (hl : s.predict_error.length = s.predictors.length) :
    (accumulate p iter2 (accumulate p iter1 s)).predict_error.getD q 0 =
      s.predict_error.getD q 0 +
        if q = p then point_cost s.predictors p iter1 + point_cost s.predictors p iter2
        else 0 := by
  obtain ⟨h1, _, _, _, _, h6, _⟩ := accumulate_frame p iter1 s
  rw [accumulate_value p q iter2 _ (by rw [h1]; exact hp) (by rw [h6, h1]; exact hl),
    accumulate_value p q iter1 s hp hl, h1]
  split
  · rw [add_assoc]
  · rw [add_zero]

theorem body_4_value (iter1 iter2 iter3 iter4 : ι) (p q : Nat)
    (s : ComposedPredictor σ ι ρ κ ε) (hp : p < s.predictors.length)
    (hl : s.predict_error.length = s.predictors.length) :
    (accumulate p iter4 (accumulate p iter3 (accumulate p iter2
      (accumulate p iter1 s)))).predict_error.getD q 0 =
      s.predict_error.getD q 0 +
        if q = p then point_cost s.predictors p iter1 + point_cost s.predictors p iter2 +
          point_cost s.predictors p iter3 + point_cost s.predictors p iter4
        else 0 := by
  obtain ⟨h1, _, _, _, _, h6, _⟩ := body_2_frame iter1 iter2 p s
  rw [body_2_value iter3 iter4 p q _ (by rw [h1]; exact hp) (by rw [h6, h1]; exact hl),
    body_2_value iter1 iter2 p q s hp hl, h1]
  split
  · simp only [add_assoc]
  · rw [add_zero]

theorem foldl_range_value
    (body : Nat → ComposedPredictor σ ι ρ κ ε → ComposedPredictor σ ι ρ κ ε) (w : Nat → κ)
    (ps : List (VirtualPredictor σ ι ρ κ)) (hframe : ∀ p s, Frame s (body p s))
    (hbody : ∀ p t, t.predictors = ps → t.predict_error.length = ps.length → p < ps.length →
      ∀ q, (body p t).predict_error.getD q 0 =
        t.predict_error.getD q 0 + if q = p then w p else 0) :
    ∀ (k : Nat), k ≤ ps.length → ∀ (s : ComposedPredictor σ ι ρ κ ε), s.predictors = ps →
      s.predict_error.length = ps.length → ∀ q,
      ((List.range k).foldl (fun t p => body p t) s).predict_error.getD q 0 =
        s.predict_error.getD q 0 + if q < k then w q else 0 := by
  intro k
  induction k with
  | zero => intro _ s _ _ q; simp
  | succ k ih =>
    intro hk s hs hl q
    obtain ⟨f1, _, _, _, _, f6, _⟩ := foldl_frame body hframe (List.range k) s
    rw [List.range_succ, List.foldl_append, List.foldl_cons, List.foldl_nil,
      hbody k _ (by rw [f1, hs]) (by rw [f6, hl]) (by omega) q, ih (by omega) s hs hl q]
    by_cases h1 : q = k
    · subst h1
      simp
    · by_cases h2 : q < k
      · rw [if_pos h2, if_neg h1, if_pos (by omega), add_zero]
      · rw [if_neg h2, if_neg h1, if_neg (by omega), add_zero]

theorem for_predictors_value
    (body : Nat → ComposedPredictor σ ι ρ κ ε → ComposedPredictor σ ι ρ κ ε) (w : Nat → κ)
    (hframe : ∀ p s, Frame s (body p s)) (s : ComposedPredictor σ ι ρ κ ε)
    (hl : s.predict_error.length = s.predictors.length)
    (hbody : ∀ p t, t.predictors = s.predictors →
      t.predict_error.length = s.predictors.length → p < s.predictors.length →
      ∀ q, (body p t).predict_error.getD q 0 =
        t.predict_error.getD q 0 + if q = p then w p else 0)
    (q : Nat) (hq : q < s.predictors.length) :
    (for_predictors body s).predict_error.getD q 0 = s.predict_error.getD q 0 + w q := by
  unfold for_predictors
  rw [foldl_range_value body w s.predictors hframe hbody _ (Nat.le_refl _) s rfl hl q, if_pos hq]

theorem moved_succ (R : RangeOps ι ρ) (offsets : List Int) (k : Nat) (iter : ι) :
    moved R offsets k (R.move iter offsets) = moved R offsets (k + 1) iter := by
  simp only [moved, Function.iterate_succ_apply]

theorem sum_range_succ_shift (f : Nat → κ) (K : Nat) :
    ((List.range (K + 1)).map f).sum = f 0 + ((List.range K).map (fun k => f (k + 1))).sum := by
  rw [List.range_succ_eq_map, List.map_cons, List.sum_cons, List.map_map]
  rfl

theorem sweep_2_value (R : RangeOps ι ρ) (q : Nat) :
    ∀ (K : Nat) (iter1 iter2 : ι) (s : ComposedPredictor σ ι ρ κ ε),
      s.predict_error.length = s.predictors.length → q < s.predictors.length →
      (sweep_2 R K iter1 iter2 s).predict_error.getD q 0 =
        s.predict_error.getD q 0 + ((List.range K).map (fun k =>
          point_cost s.predictors q (moved R [1, 1] k iter1) +
            point_cost s.predictors q (moved R [1, -1] k iter2))).sum := by
  intro K
  induction K with
  | zero => intro _ _ s _ _; simp [sweep_2]
  | succ K ih =>
    intro iter1 iter2 s hl hq
    obtain ⟨f1, _, _, _, _, f6, _⟩ := for_predictors_frame
      (fun p t => accumulate p iter2 (accumulate p iter1 t)) (body_2_frame iter1 iter2) s
    have hinner := for_predictors_value
      (fun p t => accumulate p iter2 (accumulate p iter1 t))
      (fun p => point_cost s.predictors p iter1 + point_cost s.predictors p iter2)
      (body_2_frame iter1 iter2) s hl
      (by
        intro p t ht htl hp r
        have := body_2_value iter1 iter2 p r t (by rw [ht]; exact hp) (by rw [htl, ht])
        rw [ht] at this
        exact this) q hq
    simp only [sweep_2]
    rw [ih _ _ _ (by rw [f6, f1]; exact hl) (by rw [f1]; exact hq), hinner, f1,
      sum_range_succ_shift, add_assoc]
    simp only [moved_succ]
    rfl

theorem sweep_3_value (R : RangeOps ι ρ) (q : Nat) :
    ∀ (K : Nat) (iter1 iter2 iter3 iter4 : ι) (s : ComposedPredictor σ ι ρ κ ε),
      s.predict_error.length = s.predictors.length → q < s.predictors.length →
      (sweep_3 R K iter1 iter2 iter3 iter4 s).predict_error.getD q 0 =
        s.predict_error.getD q 0 + ((List.range K).map (fun k =>
          point_cost s.predictors q (moved R [1, 1, 1] k iter1) +
            point_cost s.predictors q (moved R [1, 1, -1] k iter2) +
            point_cost s.predictors q (moved R [1, -1, 1] k iter3) +
            point_cost s.predictors q (moved R [1, -1, -1] k iter4))).sum := by
  intro K
  induction K with
  | zero => intro _ _ _ _ s _ _; simp [sweep_3]
  | succ K ih =>
    intro iter1 iter2 iter3 iter4 s hl hq
    obtain ⟨f1, _, _, _, _, f6, _⟩ := for_predictors_frame
      (fun p t => accumulate p iter4 (accumulate p iter3 (accumulate p iter2
        (accumulate p iter1 t)))) (body_4_frame iter1 iter2 iter3 iter4) s
    have hinner := for_predictors_value
      (fun p t => accumulate p iter4 (accumulate p iter3 (accumulate p iter2
        (accumulate p iter1 t))))
      (fun p => point_cost s.predictors p iter1 + point_cost s.predictors p iter2 +
        point_cost s.predictors p iter3 + point_cost s.predictors p iter4)
      (body_4_frame iter1 iter2 iter3 iter4) s hl
      (by
        intro p t ht htl hp r
        have := body_4_value iter1 iter2 iter3 iter4 p r t (by rw [ht]; exact hp)
          (by rw [htl, ht])
        rw [ht] at this
        exact this) q hq
    simp only [sweep_3]
    rw [ih _ _ _ _ _ (by rw [f6, f1]; exact hl) (by rw [f1]; exact hq), hinner, f1,
      sum_range_succ_shift, add_assoc]
    simp only [moved_succ]
    rfl

theorem fill_zero_value (s : ComposedPredictor σ ι ρ κ ε) (q : Nat) :
    (fill_zero s).predict_error.getD q 0 = 0 := by
  simp only [fill_zero, List.getD_eq_getElem?_getD, List.getElem?_map]
  cases s.predict_error[q]? <;> rfl

/-- After `estimate_error` the buffer entry of every predictor `q` is the sum of
its point costs over the sampled points. -/
theorem estimate_error_value (N : Nat) (R : RangeOps ι ρ) (iter : ι) (m : Int)
    (s : ComposedPredictor σ ι ρ κ ε) (hl : s.predict_error.length = s.predictors.length)
    (q : Nat) (hq : q < s.predictors.length) :
    (estimate_error N R iter m s).predict_error.getD q 0 =
      sampled_cost N R iter m (point_cost s.predictors q) := by
  have hz : (fill_zero s).predictors = s.predictors := rfl
  have hzl : (fill_zero s).predict_error.length = (fill_zero s).predictors.length := by
    simp [fill_zero, hl]
  unfold estimate_error sampled_cost
  split
  · unfold estimate_error_1
    have := for_predictors_value
      (fun p t => accumulate p (R.move iter [minus_one m]) (accumulate p iter t))
      (fun p => point_cost s.predictors p iter +
        point_cost s.predictors p (R.move iter [minus_one m]))
      (body_2_frame iter (R.move iter [minus_one m])) (fill_zero s) hzl
      (by
        intro p t ht htl hp r
        have := body_2_value iter (R.move iter [minus_one m]) p r t (by rw [ht]; exact hp)
          (by rw [htl, ht])
        rw [ht, hz] at this
        exact this) q hq
    rw [this, fill_zero_value, zero_add]
  · split
    · unfold estimate_error_2
      rw [sweep_2_value R q _ _ _ _ hzl hq, fill_zero_value, zero_add, hz]
    · unfold estimate_error_3
      rw [sweep_3_value R q _ _ _ _ _ _ hzl hq, fill_zero_value, zero_add, hz]

/-! ### Relative moves -/

theorem moved_offsets_2 (R : RangeOps ι ρ) (hR : relative_moves 2 R) (a b : Int) (iter : ι) :
    ∀ (k : Nat) (x y : Int),
      moved R [a, b] k (R.move iter [x, y]) = R.move iter [x + k * a, y + k * b] := by
  intro k
  induction k with
  | zero => intro x y; simp [moved]
  | succ k ih =>
    intro x y
    rw [← moved_succ, hR.2 iter [x, y] [a, b] rfl rfl]
    simp only [List.zipWith_cons_cons, List.zipWith_nil_right]
    rw [ih]
    congr 2
    · push_cast; ring
    · congr 1
      push_cast; ring

theorem moved_offsets_3 (R : RangeOps ι ρ) (hR : relative_moves 3 R) (a b c : Int) (iter : ι) :
    ∀ (k : Nat) (x y z : Int),
      moved R [a, b, c] k (R.move iter [x, y, z]) =
        R.move iter [x + k * a, y + k * b, z + k * c] := by
  intro k
  induction k with
  | zero => intro x y z; simp [moved]
  | succ k ih =>
    intro x y z
    rw [← moved_succ, hR.2 iter [x, y, z] [a, b, c] rfl rfl]
    simp only [List.zipWith_cons_cons, List.zipWith_nil_right]
    rw [ih]
    congr 2
    · push_cast; ring
    · congr 1
      · push_cast; ring
      · congr 1
        push_cast; ring

theorem moved_from_start_2 (R : RangeOps ι ρ) (hR : relative_moves 2 R) (a b : Int) (iter : ι)
    (k : Nat) : moved R [a, b] k iter = R.move iter [k * a, k * b] := by
  have h0 : R.move iter [0, 0] = iter := hR.1 iter [0, 0] rfl (by simp)
  have := moved_offsets_2 R hR a b iter k 0 0
  rw [h0] at this
  simpa using this

theorem moved_from_start_3 (R : RangeOps ι ρ) (hR : relative_moves 3 R) (a b c : Int) (iter : ι)
    (k : Nat) : moved R [a, b, c] k iter = R.move iter [k * a, k * b, k * c] := by
  have h0 : R.move iter [0, 0, 0] = iter := hR.1 iter [0, 0, 0] rfl (by simp)
  have := moved_offsets_3 R hR a b c iter k 0 0 0
  rw [h0] at this
  simpa using this

/-! ### Where `estimate_error` samples -/

theorem Sampled.nothing (P : ι → Prop) (s : ComposedPredictor σ ι ρ κ ε) : Sampled P s s :=
  ⟨[], by simp, by simp⟩

theorem Sampled.followed_by {P : ι → Prop} {s t u : ComposedPredictor σ ι ρ κ ε}
    (h₁ : Sampled P s t) (h₂ : Sampled P t u) : Sampled P s u := by
  obtain ⟨n1, a1, a2⟩ := h₁
  obtain ⟨n2, b1, b2⟩ := h₂
  refine ⟨n1 ++ n2, by rw [b1, a1, List.append_assoc], ?_⟩
  intro c hc
  rcases List.mem_append.mp hc with h | h
  · exact a2 c h
  · exact b2 c h

theorem accumulate_sampled (P : ι → Prop) (p : Nat) (iter : ι)
    (s : ComposedPredictor σ ι ρ κ ε) (h : P iter) : Sampled P s (accumulate p iter s) := by
  unfold accumulate
  split
  · exact Sampled.nothing P s
  · refine ⟨[Call.estimate_error p iter], rfl, ?_⟩
    intro c hc
    rw [List.mem_singleton] at hc
    exact ⟨p, iter, hc, h⟩

theorem for_predictors_sampled (P : ι → Prop)
    (body : Nat → ComposedPredictor σ ι ρ κ ε → ComposedPredictor σ ι ρ κ ε)
    (hbody : ∀ p s, Sampled P s (body p s)) (s : ComposedPredictor σ ι ρ κ ε) :
    Sampled P s (for_predictors body s) := by
  unfold for_predictors
  generalize List.range s.predictors.length = ps
  induction ps generalizing s with
  | nil => exact Sampled.nothing P s
  | cons p ps ih => exact (hbody p s).followed_by (ih (body p s))

theorem sweep_2_sampled (R : RangeOps ι ρ) (P : ι → Prop) :
    ∀ (K : Nat) (iter1 iter2 : ι) (s : ComposedPredictor σ ι ρ κ ε),
      (∀ k, k < K → P (moved R [1, 1] k iter1) ∧ P (moved R [1, -1] k iter2)) →
      Sampled P s (sweep_2 R K iter1 iter2 s) := by
  intro K
  induction K with
  | zero => intro _ _ s _; exact Sampled.nothing P s
  | succ K ih =>
    intro iter1 iter2 s h
    simp only [sweep_2]
    refine Sampled.followed_by (for_predictors_sampled P _ ?_ s) (ih _ _ _ ?_)
    · intro p t
      exact (accumulate_sampled P p iter1 t (h 0 (by omega)).1).followed_by
        (accumulate_sampled P p iter2 _ (h 0 (by omega)).2)
    · intro k hk
      rw [moved_succ, moved_succ]
      exact h (k + 1) (by omega)

theorem sweep_3_sampled (R : RangeOps ι ρ) (P : ι → Prop) :
    ∀ (K : Nat) (iter1 iter2 iter3 iter4 : ι) (s : ComposedPredictor σ ι ρ κ ε),
      (∀ k, k < K → P (moved R [1, 1, 1] k iter1) ∧ P (moved R [1, 1, -1] k iter2) ∧
        P (moved R [1, -1, 1] k iter3) ∧ P (moved R [1, -1, -1] k iter4)) →
      Sampled P s (sweep_3 R K iter1 iter2 iter3 iter4 s) := by
  intro K
  induction K with
  | zero => intro _ _ _ _ s _; exact Sampled.nothing P s
  | succ K ih =>
    intro iter1 iter2 iter3 iter4 s h
    simp only [sweep_3]
    refine Sampled.followed_by (for_predictors_sampled P _ ?_ s) (ih _ _ _ _ _ ?_)
    · intro p t
      obtain ⟨h1, h2, h3, h4⟩ := h 0 (by omega)
      exact ((accumulate_sampled P p iter1 t h1).followed_by (accumulate_sampled P p iter2 _ h2)).followed_by
        ((accumulate_sampled P p iter3 _ h3).followed_by (accumulate_sampled P p iter4 _ h4))
    · intro k hk
      rw [moved_succ, moved_succ, moved_succ, moved_succ]
      exact h (k + 1) (by omega)

/-! ### The grid instance moves by relative offsets -/

theorem getD_of_all_zero (l : List Int) (h : ∀ x ∈ l, x = 0) (i : Nat) : l.getD i 0 = 0 := by
  rw [List.getD_eq_getElem?_getD]
  cases hi : l[i]? with
  | none => rfl
  | some x =>
    obtain ⟨hlt, hget⟩ := List.getElem?_eq_some_iff.mp hi
    have hx : x ∈ l := hget ▸ List.getElem_mem hlt
    simp [h x hx]

theorem getD_zipWith_add (a b : List Int) (h : a.length = b.length) (i : Nat) :
    (List.zipWith (fun x y => x + y) a b).getD i 0 = a.getD i 0 + b.getD i 0 := by
  simp only [List.getD_eq_getElem?_getD, List.getElem?_zipWith]
  by_cases hi : i < a.length
  · have hi' : i < b.length := by omega
    simp [List.getElem?_eq_getElem hi, List.getElem?_eq_getElem hi']
  · have ha : a[i]? = none := List.getElem?_eq_none (by omega)
    have hb : b[i]? = none := List.getElem?_eq_none (by omega)
    simp [ha, hb]

theorem grid_range_relative (N : Nat) : relative_moves N grid_range := by
  constructor
  · intro it offsets _ h
    have h0 := getD_of_all_zero offsets h 0
    have h1 := getD_of_all_zero offsets h 1
    have h2 := getD_of_all_zero offsets h 2
    simp only [grid_range, h0, h1, h2, add_zero]
  · intro it a b ha hb
    have h : a.length = b.length := ha.trans hb.symm
    simp only [grid_range, getD_zipWith_add a b h]
    ext <;> simp <;> ring

/-- Away from `INT_MIN` the `int` subtraction `min_dimension - 1` is exact. -/
theorem minus_one_eq (m : Int) (h : -2 ^ 31 < m) : minus_one m = m - 1 := by
  unfold minus_one
  rw [if_neg (by omega)]

/-- At `INT_MIN` the `int` subtraction `min_dimension - 1` wraps to `INT_MAX`. -/
theorem minus_one_at_int_min : minus_one (-2 ^ 31) = 2 ^ 31 - 1 := by
  simp [minus_one]

theorem estimate_error_samples_inside (N : Nat) (R : RangeOps ι ρ) (hR : relative_moves N R)
    (iter : ι) (m : Int) (s : ComposedPredictor σ ι ρ κ ε) (hN : N = 1 ∨ N = 2 ∨ N = 3)
    (hm : 1 ≤ m) :
    Sampled (fun it => ∃ offsets : List Int, it = R.move iter offsets ∧ offsets.length = N ∧
      ∀ x ∈ offsets, 0 ≤ x ∧ x < m) s (estimate_error N R iter m s) := by
  have hfill : ∀ P : ι → Prop, Sampled P s (fill_zero s) := fun P => ⟨[], by simp [fill_zero], by simp⟩
  have hmo : minus_one m = m - 1 := minus_one_eq m (by omega)
  rcases hN with h | h | h
  · subst h
    simp only [estimate_error, if_true, estimate_error_1, hmo]
    refine (hfill _).followed_by (for_predictors_sampled _ _ ?_ _)
    intro p t
    refine (accumulate_sampled _ p iter t ⟨[0], (hR.1 iter [0] rfl (by simp)).symm, rfl, ?_⟩).followed_by
      (accumulate_sampled _ p _ _ ⟨[m - 1], rfl, rfl, ?_⟩)
    · intro x hx
      rw [List.mem_singleton] at hx
      omega
    · intro x hx
      rw [List.mem_singleton] at hx
      omega
  · subst h
    simp only [estimate_error, estimate_error_2, hmo]
    refine (hfill _).followed_by (sweep_2_sampled R _ _ _ _ _ ?_)
    intro k hk
    have hk' : (k : Int) < m - 2 := by omega
    constructor
    · refine ⟨[(k : Int), (k : Int)], ?_, rfl, ?_⟩
      · rw [moved_from_start_2 R hR]
        simp
      · intro x hx
        simp only [List.mem_cons, List.mem_singleton, List.not_mem_nil, or_false] at hx
        rcases hx with h | h <;> omega
    · refine ⟨[(k : Int), m - 1 - k], ?_, rfl, ?_⟩
      · rw [moved_offsets_2 R hR]
        congr 2
        · ring
        · congr 1
          ring
      · intro x hx
        simp only [List.mem_cons, List.mem_singleton, List.not_mem_nil, or_false] at hx
        rcases hx with h | h <;> omega
  · subst h
    simp only [estimate_error, estimate_error_3, hmo]
    refine (hfill _).followed_by (sweep_3_sampled R _ _ _ _ _ _ _ ?_)
    intro k hk
    have hk' : (k : Int) < m - 2 := by omega
    refine ⟨⟨[(k : Int), (k : Int), (k : Int)], ?_, rfl, ?_⟩,
      ⟨[(k : Int), (k : Int), m - 1 - k], ?_, rfl, ?_⟩,
      ⟨[(k : Int), m - 1 - k, (k : Int)], ?_, rfl, ?_⟩,
      ⟨[(k : Int), m - 1 - k, m - 1 - k], ?_, rfl, ?_⟩⟩
    · rw [moved_from_start_3 R hR]
      simp
    · intro x hx
      simp only [List.mem_cons, List.mem_singleton, List.not_mem_nil, or_false] at hx
      rcases hx with h | h | h <;> omega
    · rw [moved_offsets_3 R hR]
      congr 2
      · ring
      · congr 1
        · ring
        · congr 1
          ring
    · intro x hx
      simp only [List.mem_cons, List.mem_singleton, List.not_mem_nil, or_false] at hx
      rcases hx with h | h | h <;> omega
    · rw [moved_offsets_3 R hR]
      congr 2
      · ring
      · congr 1
        · ring
        · congr 1
          ring
    · intro x hx
      simp only [List.mem_cons, List.mem_singleton, List.not_mem_nil, or_false] at hx
      rcases hx with h | h | h <;> omega
    · rw [moved_offsets_3 R hR]
      congr 2
      · ring
      · congr 1
        · ring
        · congr 1
          ring
    · intro x hx
      simp only [List.mem_cons, List.mem_singleton, List.not_mem_nil, or_false] at hx
      rcases hx with h | h | h <;> omega

theorem getElem?_of_getD (l : List κ) (p : Nat) (hp : p < l.length) :
    l[p]? = some (l.getD p 0) := by
  rw [List.getD_eq_getElem?_getD, List.getElem?_eq_getElem hp]
  rfl

/-- Under relative moves the rank-2 sample sum runs over the offsets `(k, k)`
and `(k, m - 1 - k)`. -/
theorem sampled_cost_2 (R : RangeOps ι ρ) (hR : relative_moves 2 R) (iter : ι) (m : Int)
    (f : ι → κ) :
    sampled_cost 2 R iter m f = ((List.range (m - 2).toNat).map (fun k : Nat =>
      f (R.move iter [(k : Int), (k : Int)]) + f (R.move iter [(k : Int), m - 1 - k]))).sum := by
  simp only [sampled_cost, if_neg (by decide : ¬ (2 = 1)), if_true]
  by_cases hm : -2 ^ 31 < m
  swap
  · have hK : (m - 2).toNat = 0 := by omega
    simp [hK]
  rw [minus_one_eq m hm]
  congr 2
  funext k
  rw [moved_from_start_2 R hR, moved_offsets_2 R hR]
  congr 3
  · simp
  · congr 2
    · ring
    · congr 1
      ring

/-- Under relative moves the rank-3 sample sum runs over the offsets `(k, k, k)`,
`(k, k, m - 1 - k)`, `(k, m - 1 - k, k)` and `(k, m - 1 - k, m - 1 - k)`. -/
theorem sampled_cost_3 (R : RangeOps ι ρ) (hR : relative_moves 3 R) (iter : ι) (m : Int)
    (f : ι → κ) :
    sampled_cost 3 R iter m f = ((List.range (m - 2).toNat).map (fun k : Nat =>
      f (R.move iter [(k : Int), (k : Int), (k : Int)]) +
        f (R.move iter [(k : Int), (k : Int), m - 1 - k]) +
        f (R.move iter [(k : Int), m - 1 - k, (k : Int)]) +
        f (R.move iter [(k : Int), m - 1 - k, m - 1 - k]))).sum := by
  simp only [sampled_cost, if_neg (by decide : ¬ (3 = 1)), if_neg (by decide : ¬ (3 = 2))]
  by_cases hm : -2 ^ 31 < m
  swap
  · have hK : (m - 2).toNat = 0 := by omega
    simp [hK]
  rw [minus_one_eq m hm]
  congr 2
  funext k
  rw [moved_from_start_3 R hR, moved_offsets_3 R hR, moved_offsets_3 R hR,
    moved_offsets_3 R hR]
  have e1 : [(k : Int) * 1, (k : Int) * 1, (k : Int) * 1] = [(k : Int), (k : Int), (k : Int)] := by
    simp
  have e2 : [0 + (k : Int) * 1, 0 + (k : Int) * 1, m - 1 + (k : Int) * -1] =
      [(k : Int), (k : Int), m - 1 - k] := by
    congr 1
    · ring
    · congr 1
      · ring
      · congr 1
        ring
  have e3 : [0 + (k : Int) * 1, m - 1 + (k : Int) * -1, 0 + (k : Int) * 1] =
      [(k : Int), m - 1 - k, (k : Int)] := by
    congr 1
    · ring
    · congr 1
      · ring
      · congr 1
        ring
  have e4 : [0 + (k : Int) * 1, m - 1 + (k : Int) * -1, m - 1 + (k : Int) * -1] =
      [(k : Int), m - 1 - k, m - 1 - k] := by
    congr 1
    · ring
    · congr 1
      · ring
      · congr 1
        ring
  rw [e1, e2, e3, e4]

/-! ### The buffer is recomputed from scratch -/

theorem estimate_error_depends_on_costs (N : Nat) (R : RangeOps ι ρ) (iter : ι) (m : Int)
    (s s' : ComposedPredictor σ ι ρ κ ε)
    (hl : s.predict_error.length = s.predictors.length)
    (hl' : s'.predict_error.length = s'.predictors.length)
    (hn : s.predictors.length = s'.predictors.length)
    (hcost : ∀ p it, point_cost s.predictors p it = point_cost s'.predictors p it) :
    (estimate_error N R iter m s).predict_error =
      (estimate_error N R iter m s').predict_error := by
  obtain ⟨_, _, _, _, _, h6, _⟩ := estimate_error_frame N R iter m s
  obtain ⟨_, _, _, _, _, h6', _⟩ := estimate_error_frame N R iter m s'
  apply List.ext_getElem
  · rw [h6, h6', hl, hl', hn]
  · intro q h1 h2
    have hq : q < s.predictors.length := by rw [← hl, ← h6]; exact h1
    have hq' : q < s'.predictors.length := by rw [← hn]; exact hq
    have e1 := estimate_error_value N R iter m s hl q hq
    have e2 := estimate_error_value N R iter m s' hl' q hq'
    rw [List.getD_eq_getElem?_getD, List.getElem?_eq_getElem h1] at e1
    rw [List.getD_eq_getElem?_getD, List.getElem?_eq_getElem h2] at e2
    simp only [Option.getD_some] at e1 e2
    rw [e1, e2]
    congr 1
    funext it
    exact hcost q it

theorem min_element_loop_no_smaller :
    ∀ (xs : List κ) (i smallest : Nat) (v : κ), (∀ x ∈ xs, ¬ x < v) →
      min_element_loop xs i smallest v = smallest := by
  intro xs
  induction xs with
  | nil => intro _ _ _ _; rfl
  | cons x xs ih =>
    intro i smallest v h
    simp only [min_element_loop, if_neg (h x (List.mem_cons_self _ _))]
    exact ih _ _ _ (fun y hy => h y (List.mem_cons_of_mem _ hy))

theorem min_element_all_zero (l : List κ) (h : ∀ x ∈ l, x = 0) : min_element l = 0 := by
  cases l with
  | nil => rfl
  | cons x xs =>
    simp only [min_element]
    apply min_element_loop_no_smaller
    intro y hy
    rw [h y (List.mem_cons_of_mem _ hy), h x (List.mem_cons_self _ _)]
    exact lt_irrefl _

theorem sweep_free_estimate (N : Nat) (R : RangeOps ι ρ) (iter : ι) (m : Int)
    (s : ComposedPredictor σ ι ρ κ ε) (hN : N ≠ 1) (hm : m ≤ 2) :
    estimate_error N R iter m s = fill_zero s := by
  have hK : (m - 2).toNat = 0 := by omega
  unfold estimate_error
  rw [if_neg hN]
  split
  · simp only [estimate_error_2, hK, sweep_2]
  · simp only [estimate_error_3, hK, sweep_3]

/-! ### Cursor and `remaining_length` in `load` -/

theorem save_cursor (c : Nat) (s : ComposedPredictor σ ι ρ κ ε) :
    (save c s).2.2 = c + (save c s).2.1.length := by
  simp only [save, save_predictors_spec, List.nil_append, List.length_append,
    size_t_bytes_length]
  omega

theorem load_cursor_after_save (mem : Memory) (c remaining_length : Nat)
    (s f : ComposedPredictor σ ι ρ κ ε)
    (hpred : List.Forall₂ (load_consumes_save mem) f.predictors s.predictors)
    (hcoder : decode_consumes_encode mem f.selection_encoder s.selection_encoder s.selection
      (4 * s.predictors.length))
    (hsize : s.selection.length < 2 ^ 64)
    (hmem : holds mem c (save c s).2.1) (hrem : (save c s).2.1.length ≤ remaining_length) :
    ∃ t rem', load mem c remaining_length f =
      Except.ok (t, c + (save c s).2.1.length, rem') := by
  have hmod : s.selection.length % 2 ^ 64 = s.selection.length := Nat.mod_eq_of_lt hsize
  rw [save_bytes, hmod] at hmem hrem ⊢
  simp only [List.length_append, size_t_bytes_length] at hrem ⊢
  obtain ⟨hm1, hm23⟩ := (holds_append mem c _ _).mp hmem
  obtain ⟨hm2, hm3⟩ := (holds_append mem _ _ _).mp hm23
  rw [size_t_bytes_length] at hm3
  obtain ⟨ps, log, hps, _⟩ := load_predictors_spec mem f.predictors s.predictors hpred 0 c
    remaining_length hm1 (by omega)
  have hcount : read_size_t mem
      (c + (s.predictors.map (fun P => P.save P.state)).flatten.length) = s.selection.length := by
    rw [read_size_t_of_bytes mem _ s.selection.length, hmod]
    intro i hi
    have hi' : i < (size_t_bytes s.selection.length).length := by
      rw [size_t_bytes_length]; exact hi
    rw [hm2 i hi']
    simp [size_t_bytes]
  obtain ⟨e, rem, hload, hdec⟩ := hcoder _
    (remaining_length - (s.predictors.map (fun P => P.save P.state)).flatten.length) hm3
    (by omega)
  obtain ⟨t, ht, _⟩ := load_ok mem c remaining_length f ps _ _ log e _ rem hps hload
  refine ⟨t, rem, ?_⟩
  rw [ht, hcount, hdec]
  congr 3
  omega

theorem load_inv (mem : Memory) (c remaining_length : Nat) (f t : ComposedPredictor σ ι ρ κ ε)
    (c' rem' : Nat) (h : load mem c remaining_length f = Except.ok (t, c', rem')) :
    ∃ ps c1 rem1 log e c3,
      load_predictors mem f.predictors 0 c remaining_length = Except.ok (ps, c1, rem1, log) ∧
      f.selection_encoder.load mem (c1 + 8) rem1 f.selection_encoder.state =
        Except.ok (e, c3, rem') ∧
      c' = (f.selection_encoder.decode mem c3 (read_size_t mem c1) e).2.1 := by
  unfold load at h
  split at h
  · simp at h
  · rename_i ps c1 rem1 log hp
    simp only at h
    split at h
    · simp at h
    · rename_i e c3 rem3 he
      simp only [Except.ok.injEq, Prod.mk.injEq] at h
      obtain ⟨_, hc, hr⟩ := h
      subst hr
      exact ⟨ps, c1, rem1, log, e, c3, hp, he, hc.symm⟩

theorem load_predictors_accounts (mem : Memory) :
    ∀ (fps : List (VirtualPredictor σ ι ρ κ)),
      (∀ L ∈ fps, load_accounts mem L.load L.state) →
      ∀ (p c r : Nat) (ps : List (VirtualPredictor σ ι ρ κ)) (c1 r1 : Nat)
        (log : List (Call ι ρ)),
        load_predictors mem fps p c r = Except.ok (ps, c1, r1, log) →
        c ≤ c1 ∧ r1 ≤ r ∧ r - r1 ≤ c1 - c := by
  intro fps
  induction fps with
  | nil =>
    intro _ p c r ps c1 r1 log h
    simp only [load_predictors, Except.ok.injEq, Prod.mk.injEq] at h
    omega
  | cons L Ls ih =>
    intro hall p c r ps c1 r1 log h
    unfold load_predictors at h
    split at h
    · simp at h
    · rename_i st c2 r2 hL
      split at h
      · simp at h
      · rename_i ps' c3 r3 log' hrest
        simp only [Except.ok.injEq, Prod.mk.injEq] at h
        obtain ⟨_, hc, hr, _⟩ := h
        have h1 := hall L (List.mem_cons_self _ _) c r st c2 r2 hL
        have h2 := ih (fun M hM => hall M (List.mem_cons_of_mem _ hM)) (p + 1) c2 r2 ps' c3 r3
          log' hrest
        omega

theorem load_predictors_keeps (mem : Memory) :
    ∀ (fps : List (VirtualPredictor σ ι ρ κ)),
      (∀ L ∈ fps, load_keeps_remaining mem L.load L.state) →
      ∀ (p c r : Nat) (ps : List (VirtualPredictor σ ι ρ κ)) (c1 r1 : Nat)
        (log : List (Call ι ρ)),
        load_predictors mem fps p c r = Except.ok (ps, c1, r1, log) → r1 = r := by
  intro fps
  induction fps with
  | nil =>
    intro _ p c r ps c1 r1 log h
    simp only [load_predictors, Except.ok.injEq, Prod.mk.injEq] at h
    omega
  | cons L Ls ih =>
    intro hall p c r ps c1 r1 log h
    unfold load_predictors at h
    split at h
    · simp at h
    · rename_i st c2 r2 hL
      split at h
      · simp at h
      · rename_i ps' c3 r3 log' hrest
        simp only [Except.ok.injEq, Prod.mk.injEq] at h
        obtain ⟨_, hc, hr, _⟩ := h
        have h1 := hall L (List.mem_cons_self _ _) c r st c2 r2 hL
        have h2 := ih (fun M hM => hall M (List.mem_cons_of_mem _ hM)) (p + 1) c2 r2 ps' c3 r3
          log' hrest
        omega

theorem example_encoder_cursor_contract (mem : Memory) (bins : List Int) (hint : Nat) :
    decode_consumes_encode mem example_encoder example_encoder bins hint := by
  intro c remaining_length _ hrem
  have hh : coder_header example_encoder bins hint = [42] := rfl
  have hs : coder_stream example_encoder bins hint = bins.map (fun b => b.toNat % 256) := rfl
  rw [hh, hs] at hrem ⊢
  simp only [List.length_singleton, List.length_map] at hrem ⊢
  refine ⟨(), remaining_length - 1, ?_, rfl⟩
  simp only [example_encoder]
  rw [if_neg (by omega)]

theorem example_predictor_accounts (mem : Memory) (k st : Nat) :
    load_accounts mem (example_predictor k).load st := by
  intro c r st' c' r' h
  simp only [example_predictor] at h
  split at h
  · simp at h
  · simp only [Except.ok.injEq, Prod.mk.injEq] at h
    omega

theorem example_encoder_accounts (mem : Memory) :
    load_accounts mem example_encoder.load example_encoder.state := by
  intro c r st' c' r' h
  simp only [example_encoder] at h
  split at h
  · simp at h
  · simp only [Except.ok.injEq, Prod.mk.injEq] at h
    omega

end Sampling

end Lemmas


/-! ## The claims -/

section Claims

variable {σ ι ρ κ ε : Type}

/-- C1: for a non-empty predictor list and any block, `precompress_block` leaves
in `predict_error` the costs accumulated by `estimate_error` for that block, one
per predictor, sets `sid` to the smallest index whose accumulated cost is below
or equal to every accumulated cost (argmin, ties to the lowest index), and
appends exactly this index to the selection history. -/
theorem precompress_block_selects_argmin [LinearOrder κ] [AddCommMonoid κ] (N : Nat)
    (R : RangeOps ι ρ) (range : ρ) (s : ComposedPredictor σ ι ρ κ ε)
    (hne : s.predictors ≠ []) (hlen : s.predict_error.length = s.predictors.length) :
    ∃ i : Nat, (precompress_block N R range s).sid = (i : Int) ∧
      i < (precompress_block N R range s).predictors.length ∧
      is_first_argmin (precompress_block N R range s).predict_error i ∧
      (precompress_block N R range s).selection = s.selection ++ [(i : Int)] ∧
      (precompress_block N R range s).predict_error.length =
        (precompress_block N R range s).predictors.length ∧
      (precompress_block N R range s).predict_error =
        (estimate_error N R (R.begin range) (min_dimension_of (R.get_dimensions range))
          (broadcast_precompress_block range s)).predict_error := by
  obtain ⟨h1, h2, _, _, _, h6, _⟩ := estimate_error_frame N R (R.begin range)
    (min_dimension_of (R.get_dimensions range)) (broadcast_precompress_block range s)
  have hb : (broadcast_precompress_block range s).predictors.length = s.predictors.length := by
    simp [broadcast_precompress_block]
  have hbe : (broadcast_precompress_block range s).predict_error = s.predict_error := rfl
  have hlen2 : (estimate_error N R (R.begin range) (min_dimension_of (R.get_dimensions range))
      (broadcast_precompress_block range s)).predict_error.length = s.predictors.length := by
    rw [h6, hbe, hlen]
  have hpos : 0 < s.predictors.length := List.length_pos.mpr hne
  have hne2 : (estimate_error N R (R.begin range) (min_dimension_of (R.get_dimensions range))
      (broadcast_precompress_block range s)).predict_error ≠ [] := by
    intro h
    rw [h] at hlen2
    simp at hlen2
    omega
  refine ⟨min_element (estimate_error N R (R.begin range)
    (min_dimension_of (R.get_dimensions range))
    (broadcast_precompress_block range s)).predict_error, rfl, ?_, ?_, ?_, ?_, rfl⟩
  · have := min_element_lt_length _ hne2
    simp only [precompress_block, h1, hb]
    omega
  · exact min_element_is_first_argmin _ hne2
  · simp only [precompress_block, h2]
    rfl
  · simp only [precompress_block, h1, hb, hlen2]

/-- Witness of C1: the first block of the concrete instance. -/
theorem precompress_block_selects_argmin_witness :
    example_state.predictors ≠ [] ∧
    example_state.predict_error.length = example_state.predictors.length ∧
    ∃ i : Nat, (precompress_block 1 example_range 0 example_state).sid = (i : Int) ∧
      i < (precompress_block 1 example_range 0 example_state).predictors.length ∧
      is_first_argmin (precompress_block 1 example_range 0 example_state).predict_error i ∧
      (precompress_block 1 example_range 0 example_state).selection =
        example_state.selection ++ [(i : Int)] ∧
      (precompress_block 1 example_range 0 example_state).predict_error.length =
        (precompress_block 1 example_range 0 example_state).predictors.length ∧
      (precompress_block 1 example_range 0 example_state).predict_error =
        (estimate_error 1 example_range (example_range.begin 0)
          (min_dimension_of (example_range.get_dimensions 0))
          (broadcast_precompress_block 0 example_state)).predict_error :=
  ⟨List.cons_ne_nil _ _, by decide,
    precompress_block_selects_argmin 1 example_range 0 example_state (List.cons_ne_nil _ _)
      (by decide)⟩

/-- C2: a composed predictor with three predictors, an empty history and the
cursor at `0` processes four blocks whose accumulated costs are `(5,3,9)`,
`(1,1,2)`, `(7,2,2)` and `(4,4,4)`.  The four `precompress_block` calls set
`sid` to `1, 0, 1, 0` and leave the history `[1, 0, 1, 0]`; four subsequent
`predecompress_block` calls replay `1, 0, 1, 0` and forward to the predictors
`1, 0, 1, 0`, in this order and to no other. -/
theorem scenario_selection_and_replay [LinearOrderedRing κ] (N : Nat) (R : RangeOps ι ρ)
    (r1 r2 r3 r4 d1 d2 d3 d4 : ρ) (s s1 s2 s3 s4 : ComposedPredictor σ ι ρ κ ε)
    (hn : s.predictors.length = 3) (hsel : s.selection = []) (hcur : s.current_index = 0)
    (h1 : s1 = precompress_block N R r1 s) (c1 : s1.predict_error = [5, 3, 9])
    (h2 : s2 = precompress_block N R r2 s1) (c2 : s2.predict_error = [1, 1, 2])
    (h3 : s3 = precompress_block N R r3 s2) (c3 : s3.predict_error = [7, 2, 2])
    (h4 : s4 = precompress_block N R r4 s3) (c4 : s4.predict_error = [4, 4, 4])
    (beyond : Nat → Int) :
    [s1.sid, s2.sid, s3.sid, s4.sid] = [1, 0, 1, 0] ∧ s4.selection = [1, 0, 1, 0] ∧
    ∃ t, decompress_blocks beyond [d1, d2, d3, d4] s4 = Except.ok (t, [1, 0, 1, 0]) ∧
      calls_since s4 t = [Call.predecompress_block 1 d1, Call.predecompress_block 0 d2,
        Call.predecompress_block 1 d3, Call.predecompress_block 0 d4] := by
  have m1 : min_element ([5, 3, 9] : List κ) = 1 := by
    have a : (3 : κ) < 5 := by norm_num
    have b : ¬ (9 : κ) < 3 := by norm_num
    simp [min_element, min_element_loop, a, b]
  have m2 : min_element ([1, 1, 2] : List κ) = 0 := by
    simp [min_element, min_element_loop]
  have m3 : min_element ([7, 2, 2] : List κ) = 1 := by
    have a : (2 : κ) < 7 := by norm_num
    simp [min_element, min_element_loop, a]
  have m4 : min_element ([4, 4, 4] : List κ) = 0 := by
    simp [min_element, min_element_loop]
  have e1 : s1.sid = 1 := by
    rw [h1, precompress_block_sid, ← h1, c1, m1]; rfl
  have e2 : s2.sid = 0 := by
    rw [h2, precompress_block_sid, ← h2, c2, m2]; rfl
  have e3 : s3.sid = 1 := by
    rw [h3, precompress_block_sid, ← h3, c3, m3]; rfl
  have e4 : s4.sid = 0 := by
    rw [h4, precompress_block_sid, ← h4, c4, m4]; rfl
  have l1 : s1.selection = [1] := by
    rw [h1, precompress_block_selection, ← h1, e1, hsel]; rfl
  have l2 : s2.selection = [1, 0] := by
    rw [h2, precompress_block_selection, ← h2, e2, l1]; rfl
  have l3 : s3.selection = [1, 0, 1] := by
    rw [h3, precompress_block_selection, ← h3, e3, l2]; rfl
  have l4 : s4.selection = [1, 0, 1, 0] := by
    rw [h4, precompress_block_selection, ← h4, e4, l3]; rfl
  have n4 : s4.predictors.length = 3 := by
    rw [h4, precompress_block_length, h3, precompress_block_length, h2,
      precompress_block_length, h1, precompress_block_length, hn]
  have k4 : s4.current_index = 0 := by
    rw [h4, precompress_block_current_index, h3, precompress_block_current_index, h2,
      precompress_block_current_index, h1, precompress_block_current_index, hcur]
  refine ⟨by rw [e1, e2, e3, e4], l4, ?_⟩
  obtain ⟨t, ht, _, _, _, hcalls⟩ := decompress_blocks_spec beyond [d1, d2, d3, d4] s4
    (by rw [k4, l4]; simp)
    (by
      intro e he
      have he := List.mem_of_mem_drop (List.mem_of_mem_take he)
      rw [l4] at he
      rw [n4]
      simp only [List.mem_cons, List.mem_singleton, List.not_mem_nil, or_false] at he
      rcases he with h | h | h | h <;> subst h <;> decide)
  refine ⟨t, ?_, ?_⟩
  · rw [ht, k4, l4]; rfl
  · rw [calls_since, hcalls, List.drop_left, k4, l4]; rfl

/-- Witness of C2: the four blocks of the concrete instance. -/
theorem scenario_selection_and_replay_witness :
    example_state.predictors.length = 3 ∧ example_state.selection = [] ∧
    example_state.current_index = 0 ∧
    (precompress_block 1 example_range 0 example_state).predict_error = [5, 3, 9] ∧
    (precompress_block 1 example_range 1
      (precompress_block 1 example_range 0 example_state)).predict_error = [1, 1, 2] ∧
    (precompress_block 1 example_range 2 (precompress_block 1 example_range 1
      (precompress_block 1 example_range 0 example_state))).predict_error = [7, 2, 2] ∧
    (precompress_block 1 example_range 3 (precompress_block 1 example_range 2
      (precompress_block 1 example_range 1
        (precompress_block 1 example_range 0 example_state)))).predict_error = [4, 4, 4] ∧
    ([(precompress_block 1 example_range 0 example_state).sid,
      (precompress_block 1 example_range 1
        (precompress_block 1 example_range 0 example_state)).sid,
      (precompress_block 1 example_range 2 (precompress_block 1 example_range 1
        (precompress_block 1 example_range 0 example_state))).sid,
      (precompress_block 1 example_range 3 (precompress_block 1 example_range 2
        (precompress_block 1 example_range 1
          (precompress_block 1 example_range 0 example_state)))).sid] = [1, 0, 1, 0] ∧
    (precompress_block 1 example_range 3 (precompress_block 1 example_range 2
      (precompress_block 1 example_range 1
        (precompress_block 1 example_range 0 example_state)))).selection = [1, 0, 1, 0] ∧
    ∃ t, decompress_blocks (fun _ => 0) [0, 1, 2, 3]
        (precompress_block 1 example_range 3 (precompress_block 1 example_range 2
          (precompress_block 1 example_range 1
            (precompress_block 1 example_range 0 example_state)))) =
          Except.ok (t, [1, 0, 1, 0]) ∧
      calls_since (precompress_block 1 example_range 3 (precompress_block 1 example_range 2
          (precompress_block 1 example_range 1
            (precompress_block 1 example_range 0 example_state)))) t =
        [Call.predecompress_block 1 0, Call.predecompress_block 0 1,
          Call.predecompress_block 1 2, Call.predecompress_block 0 3]) :=
  ⟨by decide, by decide, by decide, by decide, by decide, by decide, by decide,
    scenario_selection_and_replay 1 example_range 0 1 2 3 0 1 2 3 example_state _ _ _ _
      (by decide) (by decide) (by decide) rfl (by decide) rfl (by decide) rfl (by decide)
      rfl (by decide) (fun _ => 0)⟩

/-- C3: round trip.  A composed predictor constructed over a non-empty
predictor list compresses the blocks `ranges`, which leaves it in the state `s`
with the `sid` sequence `sids`, and saves itself at `c`.  A second, freshly
constructed composed predictor whose predictors' `load` consume exactly what the
first one's predictors' `save` wrote, and whose coder's `decode` inverts the
first one's `encode`, loads these bytes.  Then `load` returns, the loaded
selection history equals the saved one, and replaying it with
`predecompress_block` over as many blocks yields the `sid` sequence of the
compression run. -/
theorem save_load_round_trip [LinearOrder κ] [AddCommMonoid κ] (N : Nat) (R : RangeOps ι ρ)
    (ranges replayed : List ρ) (preds preds' : List (VirtualPredictor σ ι ρ κ))
    (enc enc' : HuffmanEncoder ε) (sid0 sid0' : Int) (s : ComposedPredictor σ ι ρ κ ε)
    (sids : List Int) (mem : Memory) (c remaining_length : Nat) (beyond : Nat → Int)
    (hne : preds ≠ [])
    (hrun : compress_blocks N R ranges (ComposedPredictor.construct preds enc sid0) = (s, sids))
    (hsize : ranges.length < 2 ^ 64)
    (hpred : List.Forall₂ (load_consumes_save mem) preds' s.predictors)
    (hcoder : decode_inverts_encode mem enc' s.selection_encoder s.selection
      (4 * s.predictors.length))
    (hmem : holds mem c (save c s).2.1) (hrem : (save c s).2.1.length ≤ remaining_length)
    (hblocks : replayed.length = ranges.length) :
    s.selection = sids ∧
    ∃ t c' rem', load mem c remaining_length (ComposedPredictor.construct preds' enc' sid0') =
        Except.ok (t, c', rem') ∧
      t.selection = s.selection ∧
      ∃ u, decompress_blocks beyond replayed t = Except.ok (u, sids) := by
  have hwf : (ComposedPredictor.construct preds enc sid0 :
      ComposedPredictor σ ι ρ κ ε).predict_error.length =
      (ComposedPredictor.construct preds enc sid0 : ComposedPredictor σ ι ρ κ ε).predictors.length := by
    simp [ComposedPredictor.construct]
  obtain ⟨h1, h2, _, _, h5, h6⟩ := compress_blocks_spec N R ranges
    (ComposedPredictor.construct preds enc sid0 : ComposedPredictor σ ι ρ κ ε) hne hwf
  rw [hrun] at h1 h2 h5 h6
  simp only [ComposedPredictor.construct, List.nil_append] at h1 h2 h5 h6
  have hlenH : s.selection.length = ranges.length := by rw [h1, h5]
  obtain ⟨t, c', rem', ht, hsel, hpl, hcur⟩ := load_after_save mem c remaining_length s
    (ComposedPredictor.construct preds' enc' sid0') hpred hcoder (by omega) hmem hrem
  refine ⟨h1, t, c', rem', ht, hsel, ?_⟩
  have hcur0 : t.current_index = 0 := hcur
  have hn : t.predictors.length = preds.length := by
    rw [hpl]
    simp only [ComposedPredictor.construct]
    rw [List.Forall₂.length_eq hpred, h2]
  obtain ⟨u, hu, _⟩ := decompress_blocks_spec beyond replayed t
    (by rw [hcur0, hsel, hlenH, hblocks]; omega)
    (by
      intro e he
      have he := List.mem_of_mem_drop (List.mem_of_mem_take he)
      rw [hsel, h1] at he
      rw [hn]
      exact h6 e he)
  refine ⟨u, ?_⟩
  rw [hu, hcur0, hsel, h1, List.drop_zero, hblocks, ← h5, List.take_length]

/-- Witness of C3: the concrete instance compresses its four blocks, saves
sixteen bytes at address `0`, and a fresh copy loads them and replays
`1, 0, 1, 0`. -/
theorem save_load_round_trip_witness :
    ∃ t c' rem', load (memory_of [0, 0, 0, 4, 0, 0, 0, 0, 0, 0, 0, 42, 1, 0, 1, 0]) 0 16
        (ComposedPredictor.construct
          [example_predictor 0, example_predictor 1, example_predictor 2] example_encoder 5) =
        Except.ok (t, c', rem') ∧
      t.selection = [1, 0, 1, 0] ∧
      ∃ u, decompress_blocks (fun _ => 0) [0, 1, 2, 3] t = Except.ok (u, [1, 0, 1, 0]) :=
  (save_load_round_trip 1 example_range [0, 1, 2, 3] [0, 1, 2, 3]
    [example_predictor 0, example_predictor 1, example_predictor 2]
    [example_predictor 0, example_predictor 1, example_predictor 2]
    example_encoder example_encoder 0 5
    (compress_blocks 1 example_range [0, 1, 2, 3] example_state).1 [1, 0, 1, 0]
    (memory_of [0, 0, 0, 4, 0, 0, 0, 0, 0, 0, 0, 42, 1, 0, 1, 0]) 0 16 (fun _ => 0)
    (List.cons_ne_nil _ _) rfl (by decide)
    (List.Forall₂.cons (example_predictor_contract _ 0 _ rfl)
      (List.Forall₂.cons (example_predictor_contract _ 1 _ rfl)
        (List.Forall₂.cons (example_predictor_contract _ 2 _ rfl) List.Forall₂.nil)))
    (example_encoder_contract _ _ _ (by decide))
    (holds_memory_of _) (by decide) rfl).2

/-- C4 as stated fails: for rank 2 and a block of smallest extent `1` the loop
body never runs, so predictor `0` is asked `0` times, which is not
`2 × (1 - 2)`. -/
theorem estimate_error_call_count_counterexample :
    (((calls_since example_state (estimate_error 2 example_range (0, 0) 1 example_state)).countP
      (Call.is_estimate_error 0) : Nat) : Int) = 0 ∧
    (((calls_since example_state (estimate_error 2 example_range (0, 0) 1 example_state)).countP
      (Call.is_estimate_error 0) : Nat) : Int) ≠ 2 * ((1 : Int) - 2) := by
  decide

/-- C4, amended: one call of `estimate_error` with smallest extent `m` asks every
predictor of the list for an estimate exactly `2` times for rank 1, exactly
`2 × max (m - 2) 0` times for rank 2 and exactly `4 × max (m - 2) 0` times for
every other rank, whatever the iterator and the other extents are; for
`m ≥ 2` these are `2 × (m - 2)` and `4 × (m - 2)`. -/
theorem estimate_error_call_count [LinearOrder κ] [AddCommMonoid κ] (N : Nat)
    (R : RangeOps ι ρ) (iter : ι) (m : Int) (s : ComposedPredictor σ ι ρ κ ε) (q : Nat)
    (hq : q < s.predictors.length) :
    (calls_since s (estimate_error N R iter m s)).countP (Call.is_estimate_error q) =
        (if N = 1 then 2 else if N = 2 then 2 * (m - 2).toNat else 4 * (m - 2).toNat) ∧
      (2 ≤ m →
        (((calls_since s (estimate_error N R iter m s)).countP (Call.is_estimate_error q) : Nat)
          : Int) = if N = 1 then 2 else if N = 2 then 2 * (m - 2) else 4 * (m - 2)) := by
  have hpre := (estimate_error_frame N R iter m s).calls_grow
  have hsum := countP_calls_since s _ hpre (Call.is_estimate_error q)
  rw [estimate_error_count N R iter m s q hq] at hsum
  have hmain : (calls_since s (estimate_error N R iter m s)).countP (Call.is_estimate_error q) =
      (if N = 1 then 2 else if N = 2 then 2 * (m - 2).toNat else 4 * (m - 2).toNat) := by
    omega
  refine ⟨hmain, fun hm => ?_⟩
  rw [hmain]
  have hcast : (((m - 2).toNat : Nat) : Int) = m - 2 := Int.toNat_of_nonneg (by omega)
  split
  · rfl
  · split
    · push_cast
      rw [hcast]
    · push_cast
      rw [hcast]

/-- Witness of C4, amended: predictor `2` of the concrete instance, rank 2 and
smallest extent `5`. -/
theorem estimate_error_call_count_witness :
    2 < example_state.predictors.length ∧
    ((calls_since example_state (estimate_error 2 example_range (0, 0) 5 example_state)).countP
        (Call.is_estimate_error 2) =
        (if 2 = 1 then 2 else if 2 = 2 then 2 * ((5 : Int) - 2).toNat
          else 4 * ((5 : Int) - 2).toNat) ∧
      ((2 : Int) ≤ 5 →
        (((calls_since example_state
          (estimate_error 2 example_range (0, 0) 5 example_state)).countP
            (Call.is_estimate_error 2) : Nat) : Int) =
          if 2 = 1 then 2 else if 2 = 2 then 2 * ((5 : Int) - 2) else 4 * ((5 : Int) - 2))) :=
  ⟨by decide, estimate_error_call_count 2 example_range (0, 0) 5 example_state 2 (by decide)⟩

/-- C5: a `predecompress_block` call made while the cursor is below the history
length, the entry at the cursor being a valid predictor index, returns normally;
it sets `sid` to the history entry at the cursor, moves the cursor on by exactly
one, leaves the history unchanged, and forwards `predecompress_block` to the
predictor at that index and to no other (one call in the log, every other
handle untouched).  Hence `k` successive calls from cursor `0` yield as `sid` the
first `k` history entries, in order. -/
theorem predecompress_block_replays [LinearOrder κ] [AddCommMonoid κ] (beyond : Nat → Int)
    (range : ρ) (s : ComposedPredictor σ ι ρ κ ε)
    (hc : s.current_index < s.selection.length)
    (hentry : 0 ≤ s.selection[s.current_index] ∧
      (s.selection[s.current_index]).toNat < s.predictors.length) :
    (∃ t, predecompress_block beyond range s = Except.ok t ∧
      t.sid = s.selection[s.current_index] ∧
      t.current_index = s.current_index + 1 ∧
      t.selection = s.selection ∧
      calls_since s t = [Call.predecompress_block (s.selection[s.current_index]).toNat range] ∧
      (∃ P, s.predictors[(s.selection[s.current_index]).toNat]? = some P ∧
        t.predictors[(s.selection[s.current_index]).toNat]? =
          some (P.do_predecompress_block range)) ∧
      ∀ j, j ≠ (s.selection[s.current_index]).toNat → t.predictors[j]? = s.predictors[j]?) ∧
    (s.current_index = 0 → ∀ ranges : List ρ, ranges.length ≤ s.selection.length →
      (∀ e ∈ s.selection.take ranges.length, 0 ≤ e ∧ e.toNat < s.predictors.length) →
      ∃ u, decompress_blocks beyond ranges s =
        Except.ok (u, s.selection.take ranges.length)) := by
  constructor
  · obtain ⟨h0, h1⟩ := hentry
    refine ⟨_, predecompress_block_ok beyond range s _ (List.getElem?_eq_getElem hc) h0 h1,
      rfl, rfl, rfl, ?_, ⟨_, List.getElem?_eq_getElem h1, ?_⟩, ?_⟩
    · simp [calls_since]
    · simp [List.getElem?_set, h1]
    · intro j hj
      simp only [List.getElem?_set]
      rw [if_neg (fun h => hj h.symm)]
  · intro h0 ranges hlen hvalid
    obtain ⟨u, hu, _⟩ := decompress_blocks_spec beyond ranges s (by omega)
      (by rw [h0, List.drop_zero]; exact hvalid)
    refine ⟨u, ?_⟩
    rw [hu, h0, List.drop_zero]

/-- Witness of C5: the concrete instance after its four blocks, whose history is
`[1, 0, 1, 0]` and whose cursor is `0`. -/
theorem predecompress_block_replays_witness :
    (compress_blocks 1 example_range [0, 1, 2, 3] example_state).1.current_index <
      (compress_blocks 1 example_range [0, 1, 2, 3] example_state).1.selection.length ∧
    (compress_blocks 1 example_range [0, 1, 2, 3] example_state).1.current_index = 0 ∧
    ∃ u, decompress_blocks (fun _ => 7) [3, 2, 1]
        (compress_blocks 1 example_range [0, 1, 2, 3] example_state).1 =
      Except.ok (u, [1, 0, 1]) :=
  ⟨by decide, by decide,
    (predecompress_block_replays (fun _ => 7) 0
      (compress_blocks 1 example_range [0, 1, 2, 3] example_state).1 (by decide)
      (by decide)).2 (by decide) [3, 2, 1] (by decide) (by decide)⟩

/-- C6: for a non-empty predictor list, `precompress_block` calls
`precompress_block` on every predictor of the list, once each and in list order
(the only other calls it issues are `estimate_error` calls), and the following
`precompress_block_commit` returns normally, issues exactly one call, the commit
hook of the predictor at the winning index `sid`, replaces that handle by the
committed one and leaves every other handle, `sid` and the history unchanged. -/
theorem commit_reaches_only_the_winner [LinearOrder κ] [AddCommMonoid κ] (N : Nat)
    (R : RangeOps ι ρ) (range : ρ) (s : ComposedPredictor σ ι ρ κ ε)
    (hne : s.predictors ≠ []) (hlen : s.predict_error.length = s.predictors.length) :
    (∃ new, calls_since s (precompress_block N R range s) =
        (List.range s.predictors.length).map (fun p => Call.precompress_block p range) ++ new ∧
      ∀ c ∈ new, Call.is_estimate c = true) ∧
    (precompress_block N R range s).predictors =
      s.predictors.map (VirtualPredictor.do_precompress_block range) ∧
    ∃ t, precompress_block_commit (precompress_block N R range s) = Except.ok t ∧
      calls_since (precompress_block N R range s) t =
        [Call.precompress_block_commit (precompress_block N R range s).sid.toNat] ∧
      (∃ P, (precompress_block N R range s).predictors[
          (precompress_block N R range s).sid.toNat]? = some P ∧
        t.predictors[(precompress_block N R range s).sid.toNat]? = some P.do_commit) ∧
      (∀ j, j ≠ (precompress_block N R range s).sid.toNat →
        t.predictors[j]? = (precompress_block N R range s).predictors[j]?) ∧
      t.sid = (precompress_block N R range s).sid ∧
      t.selection = (precompress_block N R range s).selection := by
  obtain ⟨h0, h1⟩ := precompress_block_sid_valid N R range s hne hlen
  have h1' : (precompress_block N R range s).sid.toNat <
      (precompress_block N R range s).predictors.length := by
    rw [precompress_block_length]; exact h1
  refine ⟨?_, precompress_block_predictors N R range s, _,
    precompress_block_commit_ok _ h0 h1', ?_, ⟨_, List.getElem?_eq_getElem h1', ?_⟩, ?_, rfl, rfl⟩
  · obtain ⟨new, hnew, hall⟩ := precompress_block_calls N R range s
    exact ⟨new, by rw [calls_since, hnew, List.drop_left], hall⟩
  · simp [calls_since]
  · simp [List.getElem?_set, h1']
  · intro j hj
    simp only [List.getElem?_set]
    rw [if_neg (fun h => hj h.symm)]

/-- Witness of C6: the third block of the concrete instance, taken alone. -/
theorem commit_reaches_only_the_winner_witness :
    example_state.predictors ≠ [] ∧
    example_state.predict_error.length = example_state.predictors.length ∧
    (precompress_block 1 example_range 2 example_state).predictors =
      example_state.predictors.map (VirtualPredictor.do_precompress_block 2) ∧
    ∃ t, precompress_block_commit (precompress_block 1 example_range 2 example_state) =
        Except.ok t ∧
      calls_since (precompress_block 1 example_range 2 example_state) t =
        [Call.precompress_block_commit
          (precompress_block 1 example_range 2 example_state).sid.toNat] ∧
      (∃ P, (precompress_block 1 example_range 2 example_state).predictors[
          (precompress_block 1 example_range 2 example_state).sid.toNat]? = some P ∧
        t.predictors[(precompress_block 1 example_range 2 example_state).sid.toNat]? =
          some P.do_commit) ∧
      (∀ j, j ≠ (precompress_block 1 example_range 2 example_state).sid.toNat →
        t.predictors[j]? = (precompress_block 1 example_range 2 example_state).predictors[j]?) ∧
      t.sid = (precompress_block 1 example_range 2 example_state).sid ∧
      t.selection = (precompress_block 1 example_range 2 example_state).selection :=
  ⟨List.cons_ne_nil _ _, by decide,
    (commit_reaches_only_the_winner 1 example_range 2 example_state (List.cons_ne_nil _ _)
      (by decide)).2⟩

/-- C7 as stated fails: after its four blocks the concrete instance holds four
history entries.  Five `predecompress_block` calls all return normally; the
fifth, made with the cursor equal to the number of entries, takes the value
lying behind the history as `sid`, forwards to predictor `0` and leaves the
cursor at `5`, above the stored count `4`. -/
theorem predecompress_block_exhaustion_counterexample :
    ∃ t, decompress_blocks (fun _ => 0) [0, 1, 2, 3, 4]
        (compress_blocks 1 example_range [0, 1, 2, 3] example_state).1 =
        Except.ok (t, [1, 0, 1, 0, 0]) ∧
      t.selection.length = 4 ∧ t.current_index = 5 ∧
      t.calls.getLast? = some (Call.predecompress_block 0 4) :=
  ⟨_, rfl, by decide, by decide, rfl⟩

/-- C7, amended: `predecompress_block` checks nothing.  It never raises a fatal
error, and whenever it returns, whatever the cursor was, the cursor has moved on
by exactly one, the history is unchanged and `sid` is the history entry at the
old cursor or, at or past the end, the value found behind the history.  A call
at or past the end whose value found there is a valid index returns normally,
with the cursor above the stored count. -/
theorem predecompress_block_unchecked [LinearOrder κ] [AddCommMonoid κ] (beyond : Nat → Int)
    (range : ρ) (s : ComposedPredictor σ ι ρ κ ε) :
    predecompress_block beyond range s ≠ Except.error Fault.fatal ∧
    (∀ t, predecompress_block beyond range s = Except.ok t →
      t.current_index = s.current_index + 1 ∧ t.selection = s.selection ∧
      t.sid = s.selection.getD s.current_index (beyond s.current_index)) ∧
    (s.selection.length ≤ s.current_index → 0 ≤ beyond s.current_index →
      (beyond s.current_index).toNat < s.predictors.length →
      ∃ t, predecompress_block beyond range s = Except.ok t ∧
        t.sid = beyond s.current_index ∧ t.selection.length < t.current_index) := by
  refine ⟨?_, ?_, ?_⟩
  · unfold predecompress_block
    simp only
    split <;> simp
  · intro t ht
    unfold predecompress_block at ht
    simp only at ht
    split at ht
    · simp at ht
    · injection ht with ht
      subst ht
      exact ⟨rfl, rfl, rfl⟩
  · intro hc h0 h1
    have hget : s.selection.getD s.current_index (beyond s.current_index) =
        beyond s.current_index := by
      rw [List.getD_eq_getElem?_getD, List.getElem?_eq_none hc]
      rfl
    have hstep : predecompress_block beyond range s = Except.ok
        { s with
          sid := beyond s.current_index
          current_index := s.current_index + 1
          predictors := s.predictors.set (beyond s.current_index).toNat
            ((s.predictors[(beyond s.current_index).toNat]).do_predecompress_block range)
          calls := s.calls ++
            [Call.predecompress_block (beyond s.current_index).toNat range] } := by
      simp only [predecompress_block, hget, handle_eq_some s.predictors _ h0 h1]
    exact ⟨_, hstep, rfl, Nat.lt_succ_of_le hc⟩

/-- Witness of C7, amended: on the freshly constructed instance the history is
empty, so the very first call is made at the end of the history; it returns
with `sid` the value found there and the cursor at `1`. -/
theorem predecompress_block_unchecked_witness :
    example_state.selection.length ≤ example_state.current_index ∧
    ∃ t, predecompress_block (fun _ => 2) 0 example_state = Except.ok t ∧
      t.sid = 2 ∧ t.selection.length < t.current_index :=
  ⟨by decide,
    (predecompress_block_unchecked (fun _ => 2) 0 example_state).2.2 (by decide) (by decide)
      (by decide)⟩

/-- C9: `save` writes, in this order, the blob of every predictor in list order
(one `save` call per predictor), the eight bytes of an unsigned integer equal to
the number of history entries, the header written by the coder's `save` and the
stream written by the coder's `encode`.  The coder has been prepared by
`preprocess_encode` on the whole history with the hint `4 × predictor_count`,
`encode` is given the whole history, and the cursor at return is the cursor at
entry plus the number of bytes written, that is, just behind the coded
stream. -/
theorem save_layout [LinearOrder κ] [AddCommMonoid κ] (c : Nat)
    (s : ComposedPredictor σ ι ρ κ ε) (hsize : s.selection.length < 2 ^ 64) :
    (save c s).2.1 =
      (s.predictors.map (fun P => P.save P.state)).flatten ++
      size_t_bytes s.selection.length ++
      (s.selection_encoder.save (s.selection_encoder.preprocess_encode s.selection
        (4 * s.predictors.length) s.selection_encoder.state)).2 ++
      (s.selection_encoder.encode s.selection
        (s.selection_encoder.save (s.selection_encoder.preprocess_encode s.selection
          (4 * s.predictors.length) s.selection_encoder.state)).1).2 ∧
    (size_t_bytes s.selection.length).length = 8 ∧
    read_size_t (memory_of (size_t_bytes s.selection.length)) 0 = s.selection.length ∧
    (save c s).2.2 = c + (save c s).2.1.length ∧
    calls_since s (save c s).1 = (List.range s.predictors.length).map Call.save ∧
    (save c s).1.selection = s.selection ∧
    (save c s).1.predictors = s.predictors := by
  have hmod : s.selection.length % 2 ^ 64 = s.selection.length := Nat.mod_eq_of_lt hsize
  refine ⟨?_, size_t_bytes_length _, ?_, ?_, ?_, rfl, rfl⟩
  · simp only [save, save_predictors_spec, hmod, List.nil_append]
  · rw [read_size_t_of_bytes _ 0 s.selection.length, hmod]
    intro i hi
    have hi' : i < (size_t_bytes s.selection.length).length := by
      rw [size_t_bytes_length]; exact hi
    simp only [memory_of, Nat.zero_add, List.getD_eq_getElem?_getD,
      List.getElem?_eq_getElem hi', Option.getD_some]
    simp [size_t_bytes]
  · simp only [save, save_predictors_spec, hmod, List.nil_append, List.length_append,
      size_t_bytes_length]
    omega
  · simp only [save, save_predictors_spec, calls_since, List.drop_left, List.range_eq_range']

/-- Witness of C9: the concrete instance after its four blocks writes sixteen
bytes: three blobs, the count `4`, the header `42` and the four selections. -/
theorem save_layout_witness :
    (compress_blocks 1 example_range [0, 1, 2, 3] example_state).1.selection.length < 2 ^ 64 ∧
    (save 100 (compress_blocks 1 example_range [0, 1, 2, 3] example_state).1).2.1 =
      [0, 0, 0, 4, 0, 0, 0, 0, 0, 0, 0, 42, 1, 0, 1, 0] ∧
    (save 100 (compress_blocks 1 example_range [0, 1, 2, 3] example_state).1).2.2 = 116 ∧
    (save 100 (compress_blocks 1 example_range [0, 1, 2, 3] example_state).1).2.2 =
      100 + (save 100 (compress_blocks 1 example_range [0, 1, 2, 3]
        example_state).1).2.1.length :=
  ⟨by decide, by decide, by decide,
    (save_layout 100 (compress_blocks 1 example_range [0, 1, 2, 3] example_state).1
      (by decide)).2.2.2.1⟩

/-- C10 as stated fails: with an empty selection history (nothing compressed
yet) every count is `0`, `cnt_total` is `0` and every reported percentage is the
NaN of `0.0 / 0`, so the percentages do not sum to `1`. -/
theorem print_accounting_counterexample :
    example_state.selection = [] ∧
    print example_state = Except.ok [(0, none), (0, none), (0, none)] ∧
    percentage_sum ([(0, none), (0, none), (0, none)].map Prod.snd) ≠ some 1 := by
  refine ⟨rfl, rfl, ?_⟩
  simp [percentage_sum]

/-- C10, amended: for every selection history whose entries are valid predictor
indices, `print` reports one line per predictor and the reported block counts
sum to the number of blocks processed (the history length); when the history is
not empty the reported percentages `cnt[i] / cnt_total`, taken as exact
fractions, sum to `1`. -/
theorem print_accounting [LinearOrder κ] [AddCommMonoid κ] (s : ComposedPredictor σ ι ρ κ ε)
    (hvalid : ∀ e ∈ s.selection, 0 ≤ e ∧ e.toNat < s.predictors.length) :
    ∃ report, print s = Except.ok report ∧ report.length = s.predictors.length ∧
      (report.map Prod.fst).sum = s.selection.length ∧
      (s.selection ≠ [] → percentage_sum (report.map Prod.snd) = some 1) := by
  obtain ⟨cnt, h1, h2, h3⟩ := count_selection_spec s.selection
    (List.replicate s.predictors.length 0) 0 (by simpa using hvalid)
  have hlen : cnt.length = s.predictors.length := by simpa using h2
  have hsum : cnt.sum = s.selection.length := by simpa using h3
  have hfst : ((List.range s.predictors.length).map
      (fun i => (cnt.getD i 0, percentage (cnt.getD i 0) (0 + s.selection.length)))).map
        Prod.fst = cnt := by
    rw [List.map_map, ← hlen]
    exact range_map_getD cnt
  have hsnd : ((List.range s.predictors.length).map
      (fun i => (cnt.getD i 0, percentage (cnt.getD i 0) (0 + s.selection.length)))).map
        Prod.snd = cnt.map (fun c => percentage c (0 + s.selection.length)) := by
    rw [List.map_map]
    conv_rhs => rw [← range_map_getD cnt, List.map_map, hlen]
    rfl
  have hprint : print s = Except.ok ((List.range s.predictors.length).map
      (fun i => (cnt.getD i 0, percentage (cnt.getD i 0) (0 + s.selection.length)))) := by
    simp only [print, h1]
  refine ⟨_, hprint, by simp, ?_, ?_⟩
  · rw [hfst, hsum]
  · intro hne
    have hpos : 0 + s.selection.length ≠ 0 := by
      have := List.length_pos.mpr hne
      omega
    rw [hsnd, percentage_sum_map _ hpos, hsum]
    have hq : ((0 + s.selection.length : Nat) : ℚ) ≠ 0 := Nat.cast_ne_zero.mpr hpos
    simp only [Nat.zero_add] at hq ⊢
    rw [div_self hq]

/-- Witness of C10, amended: the concrete instance after its four blocks, whose
history `[1, 0, 1, 0]` gives the counts `2, 2, 0`. -/
theorem print_accounting_witness :
    (∀ e ∈ (compress_blocks 1 example_range [0, 1, 2, 3] example_state).1.selection,
      0 ≤ e ∧ e.toNat <
        (compress_blocks 1 example_range [0, 1, 2, 3] example_state).1.predictors.length) ∧
    (compress_blocks 1 example_range [0, 1, 2, 3] example_state).1.selection ≠ [] ∧
    ∃ report, print (compress_blocks 1 example_range [0, 1, 2, 3] example_state).1 =
        Except.ok report ∧
      report.length =
        (compress_blocks 1 example_range [0, 1, 2, 3] example_state).1.predictors.length ∧
      (report.map Prod.fst).sum =
        (compress_blocks 1 example_range [0, 1, 2, 3] example_state).1.selection.length ∧
      ((compress_blocks 1 example_range [0, 1, 2, 3] example_state).1.selection ≠ [] →
        percentage_sum (report.map Prod.snd) = some 1) :=
  ⟨by decide, by decide,
    print_accounting (compress_blocks 1 example_range [0, 1, 2, 3] example_state).1
      (by decide)⟩


/-- C11: a composed predictor constructed over at least one predictor runs
`precompress_block` over any sequence of blocks.  After every call `sid`
satisfies `0 ≤ sid < predictor_count`, and every entry of the selection history
so built lies in `[0, predictor_count)`; the predictor count itself never
changes. -/
theorem sid_and_history_stay_valid [LinearOrder κ] [AddCommMonoid κ] (N : Nat)
    (R : RangeOps ι ρ) (ranges : List ρ) (preds : List (VirtualPredictor σ ι ρ κ))
    (enc : HuffmanEncoder ε) (sid0 : Int) (hne : preds ≠ []) :
    (∀ e ∈ (compress_blocks N R ranges (ComposedPredictor.construct preds enc sid0)).2,
      0 ≤ e ∧ e < (preds.length : Int)) ∧
    (∀ e ∈ (compress_blocks N R ranges (ComposedPredictor.construct preds enc sid0)).1.selection,
      0 ≤ e ∧ e < (preds.length : Int)) ∧
    (compress_blocks N R ranges (ComposedPredictor.construct preds enc sid0)).1.predictors.length =
      preds.length := by
  have hwf : (ComposedPredictor.construct preds enc sid0 :
      ComposedPredictor σ ι ρ κ ε).predict_error.length =
      (ComposedPredictor.construct preds enc sid0 : ComposedPredictor σ ι ρ κ ε).predictors.length := by
    simp [ComposedPredictor.construct]
  obtain ⟨h1, h2, _, _, _, h6⟩ := compress_blocks_spec N R ranges
    (ComposedPredictor.construct preds enc sid0 : ComposedPredictor σ ι ρ κ ε) hne hwf
  have hvalid : ∀ e ∈ (compress_blocks N R ranges
      (ComposedPredictor.construct preds enc sid0 : ComposedPredictor σ ι ρ κ ε)).2,
      0 ≤ e ∧ e < (preds.length : Int) := by
    intro e he
    obtain ⟨a, b⟩ := h6 e he
    have b' : e.toNat < preds.length := b
    exact ⟨a, by omega⟩
  refine ⟨hvalid, ?_, h2⟩
  intro e he
  rw [h1] at he
  exact hvalid e (by simpa [ComposedPredictor.construct] using he)

/-- Witness of C11: the four blocks of the concrete instance. -/
theorem sid_and_history_stay_valid_witness :
    (∀ e ∈ (compress_blocks 1 example_range [0, 1, 2, 3] (ComposedPredictor.construct
        [example_predictor 0, example_predictor 1, example_predictor 2] example_encoder 9)).2,
      0 ≤ e ∧ e < (([example_predictor 0, example_predictor 1,
        example_predictor 2].length : Nat) : Int)) ∧
    (∀ e ∈ (compress_blocks 1 example_range [0, 1, 2, 3] (ComposedPredictor.construct
        [example_predictor 0, example_predictor 1, example_predictor 2] example_encoder
        9)).1.selection,
      0 ≤ e ∧ e < (([example_predictor 0, example_predictor 1,
        example_predictor 2].length : Nat) : Int)) ∧
    (compress_blocks 1 example_range [0, 1, 2, 3] (ComposedPredictor.construct
        [example_predictor 0, example_predictor 1, example_predictor 2] example_encoder
        9)).1.predictors.length =
      [example_predictor 0, example_predictor 1, example_predictor 2].length :=
  sid_and_history_stay_valid 1 example_range [0, 1, 2, 3]
    [example_predictor 0, example_predictor 1, example_predictor 2] example_encoder 9
    (List.cons_ne_nil _ _)

/-- C12: the selection history is append-only during compression.  Each
`precompress_block` call extends it by exactly one entry, the new `sid`, and
keeps all earlier entries; `precompress_block_commit` and `save` return it
unchanged (`predict` and `print` are `const` members and return no state at
all).  Hence `n` calls extend any history by exactly `n` entries, and after `n`
calls on a freshly constructed composed predictor the history length is `n`. -/
theorem history_is_append_only [LinearOrder κ] [AddCommMonoid κ] (N : Nat) (R : RangeOps ι ρ)
    (range : ρ) (ranges : List ρ) (s : ComposedPredictor σ ι ρ κ ε) (c : Nat)
    (preds : List (VirtualPredictor σ ι ρ κ)) (enc : HuffmanEncoder ε) (sid0 : Int) :
    (precompress_block N R range s).selection =
      s.selection ++ [(precompress_block N R range s).sid] ∧
    (∀ t, precompress_block_commit s = Except.ok t → t.selection = s.selection) ∧
    (save c s).1.selection = s.selection ∧
    (compress_blocks N R ranges s).1.selection =
      s.selection ++ (compress_blocks N R ranges s).2 ∧
    (compress_blocks N R ranges s).2.length = ranges.length ∧
    (compress_blocks N R ranges
      (ComposedPredictor.construct preds enc sid0)).1.selection.length = ranges.length := by
  obtain ⟨h1, h2⟩ := compress_blocks_history N R ranges s
  obtain ⟨h3, h4⟩ := compress_blocks_history N R ranges
    (ComposedPredictor.construct preds enc sid0 : ComposedPredictor σ ι ρ κ ε)
  refine ⟨precompress_block_selection N R range s, ?_, rfl, h1, h2, ?_⟩
  · intro t ht
    unfold precompress_block_commit at ht
    split at ht
    · simp at ht
    · injection ht with ht
      subst ht
      rfl
  · rw [h3, List.length_append, h4]
    simp [ComposedPredictor.construct]

/-- C13: let the iterator moves be relative per-axis offsets and let the smallest
axis extent `m` be at least `1`.  Then for rank 1, 2 and 3 every point at which
`estimate_error` queries a predictor lies at an offset vector from the block's
start `iter` with one offset per axis, each of them in `[0, m)`: no sampled point
lies outside the block. -/
theorem samples_stay_inside_block [LinearOrder κ] [AddCommMonoid κ] (N : Nat)
    (R : RangeOps ι ρ) (iter : ι) (m : Int) (s : ComposedPredictor σ ι ρ κ ε)
    (hR : relative_moves N R) (hN : N = 1 ∨ N = 2 ∨ N = 3) (hm : 1 ≤ m) :
    ∀ c ∈ calls_since s (estimate_error N R iter m s),
      ∃ (p : Nat) (offsets : List Int), c = Call.estimate_error p (R.move iter offsets) ∧
        offsets.length = N ∧ ∀ x ∈ offsets, 0 ≤ x ∧ x < m := by
  obtain ⟨new, hnew, hall⟩ := estimate_error_samples_inside N R hR iter m s hN hm
  intro c hc
  rw [calls_since, hnew, List.drop_left] at hc
  obtain ⟨p, it, hcall, offsets, hit, hlen, hin⟩ := hall c hc
  exact ⟨p, offsets, by rw [hcall, hit], hlen, hin⟩

/-- Witness of C13: the grid instance in rank 3 with smallest extent `5`, where
`estimate_error` issues `24` calls. -/
theorem samples_stay_inside_block_witness :
    (calls_since grid_state (estimate_error 3 grid_range (0, 0, 0) 5 grid_state)).length = 24 ∧
    ∀ c ∈ calls_since grid_state (estimate_error 3 grid_range (0, 0, 0) 5 grid_state),
      ∃ (p : Nat) (offsets : List Int),
        c = Call.estimate_error p (grid_range.move (0, 0, 0) offsets) ∧
        offsets.length = 3 ∧ ∀ x ∈ offsets, 0 ≤ x ∧ x < 5 :=
  ⟨by decide,
    samples_stay_inside_block 3 grid_range (0, 0, 0) 5 grid_state (grid_range_relative 3)
      (Or.inr (Or.inr rfl)) (by decide)⟩

/-- C14: for rank 1, every smallest extent `m` above `INT_MIN` (so that the
`int` subtraction `m - 1` does not overflow) and every predictor `P` of the
list, at index `p`, the accumulated cost `predict_error[p]` after
`estimate_error` is the sum of exactly two point costs: the estimate of `P` at
the block's start point `iter` plus its estimate at the point offset by `m - 1`
along the single axis. -/
theorem rank_1_estimate [LinearOrder κ] [AddCommMonoid κ] (R : RangeOps ι ρ) (iter : ι)
    (m : Int) (s : ComposedPredictor σ ι ρ κ ε) (p : Nat) (P : VirtualPredictor σ ι ρ κ)
    (hm : -2 ^ 31 < m)
    (hl : s.predict_error.length = s.predictors.length) (hP : s.predictors[p]? = some P) :
    (estimate_error 1 R iter m s).predict_error[p]? =
      some (P.estimate_error P.state iter + P.estimate_error P.state (R.move iter [m - 1])) := by
  have hp : p < s.predictors.length := (List.getElem?_eq_some_iff.mp hP).1
  obtain ⟨_, _, _, _, _, h6, _⟩ := estimate_error_frame 1 R iter m s
  rw [getElem?_of_getD _ p (by rw [h6, hl]; exact hp), estimate_error_value 1 R iter m s hl p hp]
  simp only [sampled_cost, if_true, minus_one_eq m hm, point_cost_of_some s.predictors p _ P hP]

/-- Witness of C14: predictor `0` of the grid instance, smallest extent `5`. -/
theorem rank_1_estimate_witness :
    (-2 ^ 31 : Int) < 5 ∧
    grid_state.predict_error.length = grid_state.predictors.length ∧
    grid_state.predictors[0]? = some (grid_predictor 3) ∧
    (estimate_error 1 grid_range (0, 0, 0) 5 grid_state).predict_error[0]? =
      some ((grid_predictor 3).estimate_error (grid_predictor 3).state (0, 0, 0) +
        (grid_predictor 3).estimate_error (grid_predictor 3).state
          (grid_range.move (0, 0, 0) [5 - 1])) :=
  ⟨by decide, by decide, rfl,
    rank_1_estimate grid_range (0, 0, 0) 5 grid_state 0 (grid_predictor 3) (by decide)
      (by decide) rfl⟩

/-- C15: for rank 2, relative iterator moves, smallest extent `m ≥ 2` and every
predictor `P` of the list, at index `p`, the accumulated cost `predict_error[p]`
after `estimate_error` is the sum over `k = 0 .. m - 3` of the estimate of `P`
at offset `(k, k)` plus its estimate at offset `(k, m - 1 - k)`: `m - 2` samples
on the ray from `(0, 0)` advancing `(+1, +1)` and `m - 2` on the ray from
`(0, m - 1)` advancing `(+1, -1)`. -/
theorem rank_2_estimate [LinearOrder κ] [AddCommMonoid κ] (R : RangeOps ι ρ) (iter : ι)
    (m : Int) (s : ComposedPredictor σ ι ρ κ ε) (p : Nat) (P : VirtualPredictor σ ι ρ κ)
    (hR : relative_moves 2 R) (hm : 2 ≤ m)
    (hl : s.predict_error.length = s.predictors.length) (hP : s.predictors[p]? = some P) :
    (estimate_error 2 R iter m s).predict_error[p]? =
      some (((List.range (m - 2).toNat).map (fun k : Nat =>
        P.estimate_error P.state (R.move iter [(k : Int), (k : Int)]) +
          P.estimate_error P.state (R.move iter [(k : Int), m - 1 - k]))).sum) ∧
    (((m - 2).toNat : Nat) : Int) = m - 2 := by
  have hp : p < s.predictors.length := (List.getElem?_eq_some_iff.mp hP).1
  obtain ⟨_, _, _, _, _, h6, _⟩ := estimate_error_frame 2 R iter m s
  refine ⟨?_, Int.toNat_of_nonneg (by omega)⟩
  rw [getElem?_of_getD _ p (by rw [h6, hl]; exact hp), estimate_error_value 2 R iter m s hl p hp,
    sampled_cost_2 R hR]
  simp only [point_cost_of_some s.predictors p _ P hP]

/-- Witness of C15: predictor `1` of the grid instance, smallest extent `5`. -/
theorem rank_2_estimate_witness :
    (2 : Int) ≤ 5 ∧ grid_state.predict_error.length = grid_state.predictors.length ∧
    grid_state.predictors[1]? = some (grid_predictor 1) ∧
    (estimate_error 2 grid_range (0, 0, 0) 5 grid_state).predict_error[1]? =
      some (((List.range ((5 : Int) - 2).toNat).map (fun k : Nat =>
        (grid_predictor 1).estimate_error (grid_predictor 1).state
          (grid_range.move (0, 0, 0) [(k : Int), (k : Int)]) +
        (grid_predictor 1).estimate_error (grid_predictor 1).state
          (grid_range.move (0, 0, 0) [(k : Int), 5 - 1 - k]))).sum) :=
  ⟨by decide, by decide, rfl,
    (rank_2_estimate grid_range (0, 0, 0) 5 grid_state 1 (grid_predictor 1)
      (grid_range_relative 2)
      (by decide) (by decide) rfl).1⟩

/-- C16: for rank 3, relative iterator moves, smallest extent `m ≥ 2` and every
predictor `P` of the list, at index `p`, the accumulated cost `predict_error[p]`
after `estimate_error` is the sum over `k = 0 .. m - 3` of the estimates of `P`
at the four offsets `(k, k, k)`, `(k, k, m - 1 - k)`, `(k, m - 1 - k, k)` and
`(k, m - 1 - k, m - 1 - k)`: four rays from the four corners of the first-axis
face, advancing with the sign patterns `+++`, `++-`, `+-+`, `+--`. -/
theorem rank_3_estimate [LinearOrder κ] [AddCommMonoid κ] (R : RangeOps ι ρ) (iter : ι)
    (m : Int) (s : ComposedPredictor σ ι ρ κ ε) (p : Nat) (P : VirtualPredictor σ ι ρ κ)
    (hR : relative_moves 3 R) (hm : 2 ≤ m)
    (hl : s.predict_error.length = s.predictors.length) (hP : s.predictors[p]? = some P) :
    (estimate_error 3 R iter m s).predict_error[p]? =
      some (((List.range (m - 2).toNat).map (fun k : Nat =>
        P.estimate_error P.state (R.move iter [(k : Int), (k : Int), (k : Int)]) +
          P.estimate_error P.state (R.move iter [(k : Int), (k : Int), m - 1 - k]) +
          P.estimate_error P.state (R.move iter [(k : Int), m - 1 - k, (k : Int)]) +
          P.estimate_error P.state (R.move iter [(k : Int), m - 1 - k, m - 1 - k]))).sum) ∧
    (((m - 2).toNat : Nat) : Int) = m - 2 := by
  have hp : p < s.predictors.length := (List.getElem?_eq_some_iff.mp hP).1
  obtain ⟨_, _, _, _, _, h6, _⟩ := estimate_error_frame 3 R iter m s
  refine ⟨?_, Int.toNat_of_nonneg (by omega)⟩
  rw [getElem?_of_getD _ p (by rw [h6, hl]; exact hp), estimate_error_value 3 R iter m s hl p hp,
    sampled_cost_3 R hR]
  simp only [point_cost_of_some s.predictors p _ P hP]

/-- Witness of C16: predictor `0` of the grid instance, smallest extent `5`. -/
theorem rank_3_estimate_witness :
    (2 : Int) ≤ 5 ∧ grid_state.predict_error.length = grid_state.predictors.length ∧
    grid_state.predictors[0]? = some (grid_predictor 3) ∧
    (estimate_error 3 grid_range (0, 0, 0) 5 grid_state).predict_error[0]? =
      some (((List.range ((5 : Int) - 2).toNat).map (fun k : Nat =>
        (grid_predictor 3).estimate_error (grid_predictor 3).state
          (grid_range.move (0, 0, 0) [(k : Int), (k : Int), (k : Int)]) +
        (grid_predictor 3).estimate_error (grid_predictor 3).state
          (grid_range.move (0, 0, 0) [(k : Int), (k : Int), 5 - 1 - k]) +
        (grid_predictor 3).estimate_error (grid_predictor 3).state
          (grid_range.move (0, 0, 0) [(k : Int), 5 - 1 - k, (k : Int)]) +
        (grid_predictor 3).estimate_error (grid_predictor 3).state
          (grid_range.move (0, 0, 0) [(k : Int), 5 - 1 - k, 5 - 1 - k]))).sum) :=
  ⟨by decide, by decide, rfl,
    (rank_3_estimate grid_range (0, 0, 0) 5 grid_state 0 (grid_predictor 3)
      (grid_range_relative 3)
      (by decide) (by decide) rfl).1⟩

/-- C17: the error-estimate buffer is recomputed from scratch for every block.
Two composed predictors with equally many predictors that agree on every point
cost leave the same contents in `predict_error` after `estimate_error`, whatever
their buffers held before and whatever their `sid`, history, cursor, coder and
call log are; and when they agree on the point costs after the predictors'
`precompress_block` hooks, `precompress_block` selects the same index in both.
The buffer's length stays equal to the predictor count. -/
theorem estimate_is_recomputed [LinearOrder κ] [AddCommMonoid κ] (N : Nat) (R : RangeOps ι ρ)
    (iter : ι) (m : Int) (range : ρ) (s s' : ComposedPredictor σ ι ρ κ ε)
    (hl : s.predict_error.length = s.predictors.length)
    (hl' : s'.predict_error.length = s'.predictors.length)
    (hn : s.predictors.length = s'.predictors.length)
    (hcost : ∀ p it, point_cost s.predictors p it = point_cost s'.predictors p it) :
    (estimate_error N R iter m s).predict_error =
      (estimate_error N R iter m s').predict_error ∧
    (estimate_error N R iter m s).predict_error.length =
      (estimate_error N R iter m s).predictors.length ∧
    (precompress_block N R range s).predict_error.length =
      (precompress_block N R range s).predictors.length ∧
    ((∀ p it, point_cost (broadcast_precompress_block range s).predictors p it =
        point_cost (broadcast_precompress_block range s').predictors p it) →
      (precompress_block N R range s).predict_error =
        (precompress_block N R range s').predict_error ∧
      (precompress_block N R range s).sid = (precompress_block N R range s').sid) := by
  obtain ⟨f1, _, _, _, _, f6, _⟩ := estimate_error_frame N R iter m s
  refine ⟨estimate_error_depends_on_costs N R iter m s s' hl hl' hn hcost, ?_, ?_, ?_⟩
  · rw [f6, f1, hl]
  · rw [precompress_block_error_length, precompress_block_length, hl]
  · intro hb
    have hbl : (broadcast_precompress_block range s).predict_error.length =
        (broadcast_precompress_block range s).predictors.length := by
      simp [broadcast_precompress_block, hl]
    have hbl' : (broadcast_precompress_block range s').predict_error.length =
        (broadcast_precompress_block range s').predictors.length := by
      simp [broadcast_precompress_block, hl']
    have hbn : (broadcast_precompress_block range s).predictors.length =
        (broadcast_precompress_block range s').predictors.length := by
      simp [broadcast_precompress_block, hn]
    have hpe := estimate_error_depends_on_costs N R (R.begin range)
      (min_dimension_of (R.get_dimensions range)) _ _ hbl hbl' hbn hb
    have hpe' : (precompress_block N R range s).predict_error =
        (precompress_block N R range s').predict_error := hpe
    refine ⟨hpe', ?_⟩
    rw [precompress_block_sid, precompress_block_sid, hpe']

/-- Witness of C17: the grid instance against a copy of it with other buffer
contents, another `sid`, history and cursor. -/
theorem estimate_is_recomputed_witness :
    (estimate_error 3 grid_range (0, 0, 0) 5 grid_state).predict_error =
      (estimate_error 3 grid_range (0, 0, 0) 5
        { grid_state with
          predict_error := [7, -4], sid := 1, selection := [1, 1, 0],
          current_index := 2 }).predict_error ∧
    (precompress_block 3 grid_range [5, 6, 7] grid_state).sid =
      (precompress_block 3 grid_range [5, 6, 7]
        { grid_state with
          predict_error := [7, -4], sid := 1, selection := [1, 1, 0],
          current_index := 2 }).sid :=
  ⟨(estimate_is_recomputed 3 grid_range (0, 0, 0) 5 [5, 6, 7] grid_state
      { grid_state with
        predict_error := [7, -4], sid := 1, selection := [1, 1, 0], current_index := 2 }
      (by decide) (by decide) (by decide) (fun _ _ => rfl)).1,
    ((estimate_is_recomputed 3 grid_range (0, 0, 0) 5 [5, 6, 7] grid_state
      { grid_state with
        predict_error := [7, -4], sid := 1, selection := [1, 1, 0], current_index := 2 }
      (by decide) (by decide) (by decide) (fun _ _ => rfl)).2.2.2 (fun _ _ => rfl)).2⟩

/-- C18: for every rank other than 1, so for rank 2 and rank 3, and a smallest
axis extent `m ≤ 2`, `estimate_error` queries no predictor at all and leaves
every accumulated cost at `0`; hence `precompress_block` on a block whose
`min_dimension` is at most `2` selects predictor index `0`, whatever the
predictors would estimate, and appends `0` to the history. -/
theorem degenerate_blocks_select_first [LinearOrder κ] [AddCommMonoid κ] (N : Nat)
    (R : RangeOps ι ρ) (iter : ι) (m : Int) (range : ρ) (s : ComposedPredictor σ ι ρ κ ε)
    (hN : N ≠ 1) (hm : m ≤ 2) :
    calls_since s (estimate_error N R iter m s) = [] ∧
    (∀ x ∈ (estimate_error N R iter m s).predict_error, x = 0) ∧
    (estimate_error N R iter m s).predict_error.length = s.predict_error.length ∧
    (min_dimension_of (R.get_dimensions range) ≤ 2 →
      (∀ c ∈ calls_since s (precompress_block N R range s), Call.is_estimate c = false) ∧
      (precompress_block N R range s).sid = 0 ∧
      (precompress_block N R range s).selection = s.selection ++ [0]) := by
  have hzero : ∀ t : ComposedPredictor σ ι ρ κ ε, ∀ x ∈ (fill_zero t).predict_error, x = 0 := by
    intro t x hx
    simp only [fill_zero, List.mem_map] at hx
    obtain ⟨_, _, h⟩ := hx
    exact h.symm
  refine ⟨?_, ?_, ?_, ?_⟩
  · rw [sweep_free_estimate N R iter m s hN hm]
    simp [calls_since, fill_zero]
  · rw [sweep_free_estimate N R iter m s hN hm]
    exact hzero s
  · rw [sweep_free_estimate N R iter m s hN hm]
    simp [fill_zero]
  · intro hd
    have he := sweep_free_estimate N R (R.begin range) (min_dimension_of (R.get_dimensions range))
      (broadcast_precompress_block range s) hN hd
    have hpe : (precompress_block N R range s).predict_error =
        (fill_zero (broadcast_precompress_block range s)).predict_error := by
      simp only [precompress_block, he]
    have hsid : (precompress_block N R range s).sid = 0 := by
      rw [precompress_block_sid, hpe, min_element_all_zero _ (hzero _)]
      rfl
    refine ⟨?_, hsid, ?_⟩
    · intro c hc
      have hcalls : (precompress_block N R range s).calls = s.calls ++
          (List.range s.predictors.length).map (fun p => Call.precompress_block p range) := by
        simp only [precompress_block, he]
        rfl
      rw [calls_since, hcalls, List.drop_left, List.mem_map] at hc
      obtain ⟨p, _, hp⟩ := hc
      rw [← hp]
      rfl
    · rw [precompress_block_selection, hsid]

/-- Witness of C18: the grid instance on a block of extents `6 × 2 × 9`, where
predictor `1` is the cheaper one at every point off the first-axis face. -/
theorem degenerate_blocks_select_first_witness :
    (3 : Nat) ≠ 1 ∧ (2 : Int) ≤ 2 ∧ min_dimension_of (grid_range.get_dimensions [6, 2, 9]) ≤ 2 ∧
    calls_since grid_state (estimate_error 3 grid_range (0, 0, 0) 2 grid_state) = [] ∧
    (precompress_block 3 grid_range [6, 2, 9] grid_state).sid = 0 ∧
    (precompress_block 3 grid_range [6, 2, 9] grid_state).selection =
      grid_state.selection ++ [0] :=
  ⟨by decide, by decide, by decide,
    (degenerate_blocks_select_first 3 grid_range (0, 0, 0) 2 [6, 2, 9] grid_state (by decide)
      (by decide)).1,
    ((degenerate_blocks_select_first 3 grid_range (0, 0, 0) 2 [6, 2, 9] grid_state (by decide)
      (by decide)).2.2.2 (by decide)).2⟩

/-- C19: cursor symmetry.  A composed predictor `s` saves itself, and the bytes
it wrote lie in `mem` at `c`.  If the `load` of every predictor of `f` consumes
exactly what the `save` of the matching predictor of `s` wrote, and the `load`
and `decode` of `f`'s coder advance the cursor by exactly what the `save` and
`encode` of `s`'s coder wrote, then `load` on `f` returns and has advanced the
read cursor by exactly as many bytes as `save` advanced the write cursor: the
predictor blobs, `8`, the coder header and the coded stream. -/
theorem load_cursor_matches_save [LinearOrder κ] [AddCommMonoid κ] (mem : Memory)
    (c remaining_length written_at : Nat) (s f : ComposedPredictor σ ι ρ κ ε)
    (hpred : List.Forall₂ (load_consumes_save mem) f.predictors s.predictors)
    (hcoder : decode_consumes_encode mem f.selection_encoder s.selection_encoder s.selection
      (4 * s.predictors.length))
    (hsize : s.selection.length < 2 ^ 64)
    (hmem : holds mem c (save written_at s).2.1)
    (hrem : (save written_at s).2.1.length ≤ remaining_length) :
    ∃ t c' rem', load mem c remaining_length f = Except.ok (t, c', rem') ∧ c ≤ c' ∧
      c' - c = (save written_at s).2.2 - written_at ∧
      c' - c = (s.predictors.map (fun P => (P.save P.state).length)).sum + 8 +
        (coder_header s.selection_encoder s.selection (4 * s.predictors.length)).length +
        (coder_stream s.selection_encoder s.selection (4 * s.predictors.length)).length := by
  have hb : (save written_at s).2.1 = (save c s).2.1 := by rw [save_bytes, save_bytes]
  rw [hb] at hmem hrem
  obtain ⟨t, rem', ht⟩ := load_cursor_after_save mem c remaining_length s f hpred hcoder hsize
    hmem hrem
  refine ⟨t, _, rem', ht, by omega, ?_, ?_⟩
  · rw [save_cursor, hb]
    omega
  · rw [save_bytes]
    simp only [List.length_append, size_t_bytes_length, List.length_flatten, List.map_map]
    have : (List.length ∘ fun P : VirtualPredictor σ ι ρ κ => P.save P.state) =
        fun P => (P.save P.state).length := rfl
    rw [this]
    omega

/-- Witness of C19: the concrete instance after its four blocks saves sixteen
bytes at address `100`; a fresh copy loads them at address `0`. -/
theorem load_cursor_matches_save_witness :
    ∃ t c' rem', load (memory_of [0, 0, 0, 4, 0, 0, 0, 0, 0, 0, 0, 42, 1, 0, 1, 0]) 0 16
        example_state = Except.ok (t, c', rem') ∧ 0 ≤ c' ∧
      c' - 0 = (save 100 (compress_blocks 1 example_range [0, 1, 2, 3] example_state).1).2.2
        - 100 :=
  (fun ⟨t, c', rem', h1, h2, h3, _⟩ => ⟨t, c', rem', h1, h2, h3⟩)
    (load_cursor_matches_save (memory_of [0, 0, 0, 4, 0, 0, 0, 0, 0, 0, 0, 42, 1, 0, 1, 0]) 0 16
      100 (compress_blocks 1 example_range [0, 1, 2, 3] example_state).1 example_state
      (List.Forall₂.cons (example_predictor_contract _ 0 _ rfl)
        (List.Forall₂.cons (example_predictor_contract _ 1 _ rfl)
          (List.Forall₂.cons (example_predictor_contract _ 2 _ rfl) List.Forall₂.nil)))
      (example_encoder_cursor_contract _ _ _) (by decide) (holds_memory_of _) (by decide))

/-- C20: `remaining_length` in `load`.  Whenever `load` returns, the predictors'
loads have returned, the coder's `load` has been called with the cursor moved by
the `8` bytes of the selection count and with exactly the `remaining_length`
left by the last predictor's `load`, and what it leaves is what `load` returns;
so `remaining_length` is changed by these calls only: it is unchanged when none
of them changes it.  When each of them accounts for what it consumes and
`decode` does not move the cursor back, the decrease of `remaining_length` over
the whole `load` is at least `8` less than the number of bytes the read cursor
advanced. -/
theorem remaining_length_accounting [LinearOrder κ] [AddCommMonoid κ] (mem : Memory)
    (c remaining_length : Nat) (f t : ComposedPredictor σ ι ρ κ ε) (c' rem' : Nat)
    (h : load mem c remaining_length f = Except.ok (t, c', rem')) :
    (∃ ps c1 rem1 log e c3,
      load_predictors mem f.predictors 0 c remaining_length = Except.ok (ps, c1, rem1, log) ∧
      f.selection_encoder.load mem (c1 + 8) rem1 f.selection_encoder.state =
        Except.ok (e, c3, rem') ∧
      c' = (f.selection_encoder.decode mem c3 (read_size_t mem c1) e).2.1) ∧
    ((∀ L ∈ f.predictors, load_keeps_remaining mem L.load L.state) →
      load_keeps_remaining mem f.selection_encoder.load f.selection_encoder.state →
      rem' = remaining_length) ∧
    ((∀ L ∈ f.predictors, load_accounts mem L.load L.state) →
      load_accounts mem f.selection_encoder.load f.selection_encoder.state →
      (∀ c0 n e, c0 ≤ (f.selection_encoder.decode mem c0 n e).2.1) →
      rem' ≤ remaining_length ∧ (remaining_length - rem') + 8 ≤ c' - c) := by
  obtain ⟨ps, c1, rem1, log, e, c3, hp, he, hc⟩ := load_inv mem c remaining_length f t c' rem' h
  refine ⟨⟨ps, c1, rem1, log, e, c3, hp, he, hc⟩, ?_, ?_⟩
  · intro hk1 hk2
    have a := load_predictors_keeps mem f.predictors hk1 0 c remaining_length ps c1 rem1 log hp
    have b := hk2 (c1 + 8) rem1 e c3 rem' he
    omega
  · intro ha1 ha2 ha3
    have a := load_predictors_accounts mem f.predictors ha1 0 c remaining_length ps c1 rem1 log hp
    have b := ha2 (c1 + 8) rem1 e c3 rem' he
    have d := ha3 c3 (read_size_t mem c1) e
    omega

/-- Witness of C20: the concrete instance loads sixteen bytes with
`remaining_length = 16`; the cursor advances by `16`, `remaining_length` drops
by `4`. -/
theorem remaining_length_accounting_witness :
    (∃ t, load (memory_of [0, 0, 0, 4, 0, 0, 0, 0, 0, 0, 0, 42, 1, 0, 1, 0]) 0 16 example_state =
      Except.ok (t, 16, 12)) ∧
    (12 ≤ 16 ∧ (16 - 12) + 8 ≤ 16 - 0) :=
  ⟨⟨_, rfl⟩,
    (remaining_length_accounting (memory_of [0, 0, 0, 4, 0, 0, 0, 0, 0, 0, 0, 42, 1, 0, 1, 0])
      0 16 example_state _ 16 12 rfl).2.2
      (fun L hL => by
        simp only [example_state, ComposedPredictor.construct, List.mem_cons,
          List.mem_singleton, List.not_mem_nil, or_false] at hL
        rcases hL with h | h | h <;> subst h <;> exact example_predictor_accounts _ _ _)
      (example_encoder_accounts _) (fun _ _ _ => Nat.le_add_right _ _)⟩

end Claims

end SZ
